import Mathlib

/-!
Verification development for the CVBotDevelop repository.

This file shallowly embeds the parts of the source relevant to the
checked claims: the RAG retrieval core (`rag.py`), the two chunkers
(`rag._split_into_chunks`, `ingestion.chunk_text`), the non-answer
classifiers (`bot.is_empty_message`, `ingestion.is_empty_faq_answer`),
the web search/fetch deny-list filters (`bot._web_search_impl`,
`bot._web_fetch_impl`), the Assistants tool-calling orchestrator
(`bot.answer_via_assistant`) and the FAQ cache builder/loader
(`ingestion.build_and_save_cache`, `bot.load_cache`).

Modelling conventions: Python strings are `List Char` (wrapped in
`String` where convenient); Python floats are exact rationals; a raised
Python exception is an `Except.error` / `Option.none`; external
collaborators (OpenAI client, DDGS, httpx, lxml, tiktoken) are supplied
as explicit function parameters.
-/

/-- Python whitespace: the characters matched by the regex class `\s` and
stripped by `str.strip()` (the ASCII whitespace subset, which covers every
string this code base manipulates). -/
def isPySpace (c : Char) : Bool :=
  c = ' ' || c = '\t' || c = '\n' || c = '\r' || c = '\x0b' || c = '\x0c'

/-- Python `str.strip()` on a `List Char` string. -/
def pyStrip (s : List Char) : List Char :=
  ((s.dropWhile isPySpace).reverse.dropWhile isPySpace).reverse

/-- Python `str.lower()` for the character ranges occurring in this
repository: ASCII letters, the Russian Cyrillic block А..Я and Ё. -/
def charLower (c : Char) : Char :=
  if 'A' ≤ c ∧ c ≤ 'Z' then Char.ofNat (c.toNat + 32)
  else if 0x410 ≤ c.toNat ∧ c.toNat ≤ 0x42F then Char.ofNat (c.toNat + 32)
  else if c.toNat = 0x401 then Char.ofNat 0x451
  else c

/-- Python `str.upper()` for the same character ranges. -/
def charUpper (c : Char) : Char :=
  if 'a' ≤ c ∧ c ≤ 'z' then Char.ofNat (c.toNat - 32)
  else if 0x430 ≤ c.toNat ∧ c.toNat ≤ 0x44F then Char.ofNat (c.toNat - 32)
  else if c.toNat = 0x451 then Char.ofNat 0x401
  else c

/-- Python `\w` (word character) for the occurring ranges: ASCII
alphanumerics, underscore, and Russian Cyrillic letters. -/
def isWordChar (c : Char) : Bool :=
  c.isAlphanum || c = '_' ||
    (0x410 ≤ c.toNat && c.toNat ≤ 0x44F) || c.toNat = 0x401 || c.toNat = 0x451

/-- Python `str.lower()` on a whole string. -/
def pyLowerS (s : String) : String := ⟨s.data.map charLower⟩

/-- Python `str.upper()` on a whole string. -/
def pyUpperS (s : String) : String := ⟨s.data.map charUpper⟩

/-- Python `str.strip()` on a whole string. -/
def pyStripS (s : String) : String := ⟨pyStrip s.data⟩

/-- Python `needle in hay` on strings (substring containment). -/
def py_in (needle hay : String) : Bool := decide (needle.data <:+: hay.data)

/-- Python `x or d` for an optional string `x` (`None` and the empty
string are falsy). -/
def pyOrStr (o : Option String) (d : String) : String :=
  match o with
  | none => d
  | some s => if s = "" then d else s

/-- Abstract syntax of the regular-expression subset used by the pattern
lists in `bot.EMPTY_PATTERNS` and `ingestion.is_empty_faq_answer`:
literal characters, the class `\s`, concatenation, alternation, the
Kleene star and the word boundary `\b` (`X?` is `alt X eps`, `\s+` is
`seq ws (star ws)`). -/
inductive RE
  | eps
  | ch (c : Char)
  | ws
  | seq (a b : RE)
  | alt (a b : RE)
  | star (a : RE)
  | wb
deriving DecidableEq

/-- Structural size of a pattern, used to compute a sufficient matcher
recursion budget. -/
def RE.size : RE → Nat
  | .eps => 1
  | .ch _ => 1
  | .ws => 1
  | .wb => 1
  | .seq a b => a.size + b.size + 1
  | .alt a b => a.size + b.size + 1
  | .star a => a.size + 1

/-- Word-boundary test between the previously consumed character and the
head of the remaining input (string edges count as non-word). -/
def isWbAt (prev : Option Char) (s : List Char) : Bool :=
  let w1 := match prev with | none => false | some c => isWordChar c
  let w2 := match s with | [] => false | c :: _ => isWordChar c
  w1 != w2

/-- Backtracking regex matcher: every `(last consumed char, remaining
suffix)` pair reachable by matching `r` against a prefix of `s`. `fuel`
bounds the recursion depth; each `star` iteration must consume input, so
a budget linear in pattern size plus input length suffices (searches in
this file always receive `searchFuel`). -/
def rmatch : Nat → RE → Option Char → List Char → List (Option Char × List Char)
  | 0, _, _, _ => []
  | _ + 1, .eps, prev, s => [(prev, s)]
  | _ + 1, .ch c, _, s =>
    match s with
    | [] => []
    | a :: rest => if a = c then [(some a, rest)] else []
  | _ + 1, .ws, _, s =>
    match s with
    | [] => []
    | a :: rest => if isPySpace a then [(some a, rest)] else []
  | f + 1, .seq a b, prev, s =>
    (rmatch f a prev s).flatMap fun pr => rmatch f b pr.1 pr.2
  | f + 1, .alt a b, prev, s => rmatch f a prev s ++ rmatch f b prev s
  | f + 1, .star a, prev, s =>
    (prev, s) :: ((rmatch f a prev s).flatMap fun pr =>
      if pr.2.length < s.length then rmatch f (.star a) pr.1 pr.2 else [])
  | _ + 1, .wb, prev, s => if isWbAt prev s then [(prev, s)] else []

/-- Recursion budget that lets `rmatch` explore every backtracking path
for pattern `r` on input `s`. -/
def searchFuel (r : RE) (s : List Char) : Nat := 4 * (r.size + s.length + 4)

/-- Try to match `r` at the current position, else advance one character
(tracking the previous character for `\b`). -/
def searchAux (r : RE) (f : Nat) : Option Char → List Char → Bool
  | prev, [] => !(rmatch f r prev []).isEmpty
  | prev, c :: rest =>
    !(rmatch f r prev (c :: rest)).isEmpty || searchAux r f (some c) rest

/-- Python `re.search(r, s) is not None` for the embedded pattern
subset: try a match at every start position. -/
def reSearch (r : RE) (s : List Char) : Bool :=
  searchAux r (searchFuel r s) none s

/-- A literal string as a pattern. -/
def litL : List Char → RE
  | [] => .eps
  | c :: cs => .seq (.ch c) (litL cs)

/-- A literal string as a pattern. -/
def lit (s : String) : RE := litL s.data

/-- The pattern `\s+`. -/
def wsPlus : RE := .seq .ws (.star .ws)

/-- The pattern `X?`. -/
def ropt (r : RE) : RE := .alt r .eps

/-- Concatenation of a pattern list. -/
def rcat (l : List RE) : RE := l.foldr .seq .eps

/-- Pattern `нет\s+(конкретной\s+)?информаци`. -/
def pat1 : RE := rcat [lit "нет", wsPlus, ropt (rcat [lit "конкретной", wsPlus]), lit "информаци"]

/-- Pattern `в\s+(резюме|контексте|фрагмент(ах)?|предоставленных\s+фрагмент(ах)?)\s+нет`. -/
def pat2 : RE :=
  rcat [lit "в", wsPlus,
    RE.alt (lit "резюме")
      (RE.alt (lit "контексте")
        (RE.alt (rcat [lit "фрагмент", ropt (lit "ах")])
          (rcat [lit "предоставленных", wsPlus, lit "фрагмент", ropt (lit "ах")]))),
    wsPlus, lit "нет"]

/-- Pattern `не\s+наш(лось|елось)`. -/
def pat3 : RE := rcat [lit "не", wsPlus, lit "наш", RE.alt (lit "лось") (lit "елось")]

/-- Pattern `не\s+найдено`. -/
def pat4 : RE := rcat [lit "не", wsPlus, lit "найдено"]

/-- Pattern `данных\s+нет`. -/
def pat5 : RE := rcat [lit "данных", wsPlus, lit "нет"]

/-- Pattern `не\s+содержится`. -/
def pat6 : RE := rcat [lit "не", wsPlus, lit "содержится"]

/-- Pattern `контекст\s+не\s+найден`. -/
def pat7 : RE := rcat [lit "контекст", wsPlus, lit "не", wsPlus, lit "найден"]

/-- Pattern `релевантн(ых|ые)\s+фрагмент`. -/
def pat8 : RE := rcat [lit "релевантн", RE.alt (lit "ых") (lit "ые"), wsPlus, lit "фрагмент"]

/-- Pattern `контекст\s+из\s+резюме\s+не\s+найден`. -/
def pat9 : RE :=
  rcat [lit "контекст", wsPlus, lit "из", wsPlus, lit "резюме", wsPlus, lit "не", wsPlus, lit "найден"]

/-- Pattern `\bno\s*answer\b` (only in `bot.EMPTY_PATTERNS`). -/
def pat10bot : RE := rcat [RE.wb, lit "no", RE.star RE.ws, lit "answer", RE.wb]

/-- Pattern `в\s+предоставленных\s+фрагмент(ах)?\s+резюме\s+нет\s+конкретн(ой|ых)\s+информаци`
(only in `ingestion.is_empty_faq_answer`). -/
def pat10ing : RE :=
  rcat [lit "в", wsPlus, lit "предоставленных", wsPlus, lit "фрагмент", ropt (lit "ах"),
    wsPlus, lit "резюме", wsPlus, lit "нет", wsPlus, lit "конкретн",
    RE.alt (lit "ой") (lit "ых"), wsPlus, lit "информаци"]

/-- The pattern list `bot.EMPTY_PATTERNS` (bot.py lines 46–57). -/
def EMPTY_PATTERNS : List RE :=
  [pat1, pat2, pat3, pat4, pat5, pat6, pat7, pat8, pat9, pat10bot]

/-- The pattern list inside `ingestion.is_empty_faq_answer` (ingestion.py
lines 68–79). -/
def ING_PATTERNS : List RE :=
  [pat1, pat2, pat3, pat4, pat5, pat6, pat7, pat8, pat9, pat10ing]

/-- The normalisation `text.lower().replace("ё", "е")` that both classifiers
apply before pattern search. -/
def classifierNorm (s : String) : List Char :=
  (s.data.map charLower).map fun c => if c = 'ё' then 'е' else c

/-- Models `bot.is_empty_message` (bot.py lines 68–72): `True` for a falsy or
whitespace-only input, else whether any `EMPTY_PATTERNS` pattern matches
the lowered, ё-normalised text. -/
def is_empty_message (text : Option String) : Bool :=
  match text with
  | none => true
  | some t =>
    if t.data = [] then true
    else if pyStrip t.data = [] then true
    else EMPTY_PATTERNS.any fun p => reSearch p (classifierNorm t)

/-- Models `ingestion.is_empty_faq_answer` (ingestion.py lines 60–80): same
shape as `bot.is_empty_message` with its own pattern list. -/
def is_empty_faq_answer (text : String) : Bool :=
  if text.data = [] then true
  else if pyStrip text.data = [] then true
  else ING_PATTERNS.any fun p => reSearch p (classifierNorm text)

/-- The non-answer gate applied to a synthesized reply in
`bot._answer_from_resume` (bot.py line 213): `not ans or "NO_ANSWER" in
ans.upper() or is_empty_message(ans)` — the literal sentinel is handled
by a separate substring check, not by the classifier. -/
def answer_gate_rejects (ans : String) : Bool :=
  ans = "" || py_in "NO_ANSWER" (pyUpperS ans) || is_empty_message (some ans)

/-- A chunk record (`rag.Chunk`, rag.py lines 29–34). -/
structure Chunk where
  id : String
  source : String
  page : Option Int
  text : String
deriving DecidableEq, Inhabited

/-- One retrieval hit: the dict `{score, id, source, page, text}`
appended by `rag.retrieve` (rag.py lines 263–272), with the float score
modelled as an exact rational. -/
structure Hit where
  score : ℚ
  id : String
  source : String
  page : Option Int
  text : String
deriving DecidableEq

/-- Dot product of two equal-length rows; on L2-normalised rows this is
exactly the cosine similarity `_cosine_sim` computes (rag.py lines 132–134). -/
def dot (a b : List ℚ) : ℚ := (a.zipWith (· * ·) b).sum

/-- The similarity vector `sims = _cosine_sim(q, embs)[0]`: the dot
product of the query row with every stored row. -/
def simsOf (q : List ℚ) (embs : List (List ℚ)) : List ℚ :=
  embs.map fun e => dot q e

/-- Lookup `sims[i]` (0 past the end; selection indices are always in range). -/
def simAt (sims : List ℚ) (i : Nat) : ℚ := sims.getD i 0

/-- Ranking used by `stableTopKSel`/`argTopK`, ONE deterministic
refinement of the selection `np.argpartition(sims, -top_k)[-top_k:]` +
`idx[np.argsort(-sims[idx])]` (rag.py lines 260–262): index `i` ranks
before `j` when its score is strictly larger, equal scores ranking by
insertion order. numpy does NOT guarantee this tie order (introselect's
boundary choice and the default non-stable quicksort are
implementation-defined), so nothing tie-dependent may be concluded from
this refinement; what the source does guarantee is `AdmissibleTopK`
below, and claim C1 is settled against every admissible selection. The
refinement is used only where ties are immaterial (the executable model
and claims C2/C3's raise/empty/success facts). -/
def rankBefore (sims : List ℚ) (i j : Nat) : Bool :=
  decide (simAt sims j < simAt sims i) ||
    (decide (simAt sims i = simAt sims j) && decide (i < j))

/-- The `Prop` form of `rankBefore`. -/
def RankLT (sims : List ℚ) (i j : Nat) : Prop :=
  simAt sims j < simAt sims i ∨ (simAt sims i = simAt sims j ∧ i < j)

/-- Insert an index into a rank-sorted index list (stable). -/
def insRank (sims : List ℚ) (x : Nat) : List Nat → List Nat
  | [] => [x]
  | y :: ys => if rankBefore sims x y then x :: y :: ys else y :: insRank sims x ys

/-- Sort an index list by descending score, ties by insertion order. -/
def sortRank (sims : List ℚ) (l : List Nat) : List Nat :=
  l.foldr (insRank sims) []

/-- The numpy-normalised partition position of `kth = -top_k` for an
array of length `n` (a negative position gains `n`; `-0` is just `0`). -/
def kthOf (n top_k : Nat) : Int :=
  if top_k = 0 then 0 else (n : Int) - (top_k : Int)

/-- Executable model of `np.argpartition(sims, -top_k)[-top_k:]`
followed by `idx[np.argsort(-sims[idx])]`, using the `rankBefore`
determinization (see its caveat: numpy does not fix the tie order, so
only tie-insensitive facts — claims C2/C3 — are proved against this
definition; claim C1 quantifies over every `AdmissibleTopK` selection
instead). `np.argpartition` raises `ValueError: kth out of bounds` when
the normalised position of `-top_k` is not a valid index of `sims`,
which is the `none` case. With `top_k = 0` Python's slice `[-0:]` keeps
the whole array. -/
def argTopK (sims : List ℚ) (top_k : Nat) : Option (List Nat) :=
  if 0 ≤ kthOf sims.length top_k ∧ kthOf sims.length top_k < (sims.length : Int) then
    some (if top_k = 0 then sortRank sims (List.range sims.length)
          else (sortRank sims (List.range sims.length)).take top_k)
  else none

/-- Effectful map over `Option` mirroring a Python `for` loop in which an
iteration may raise (aborting the whole loop). -/
def mapMOpt (f : α → Option β) : List α → Option (List β)
  | [] => some []
  | a :: as => (f a).bind fun b => (mapMOpt f as).map fun bs => b :: bs

/-- Models `rag.retrieve` (rag.py lines 246–273): empty stored matrix
(`embs.size == 0`) returns `[]` before the query is even embedded;
otherwise scores every stored row against the embedded query, selects
`top_k` indices with `np.argpartition`/`np.argsort` and builds the hit
dicts. `none` models a raised exception (`np.argpartition` bound error,
or an out-of-range chunk-list access). -/
def retrieve (embs : List (List ℚ)) (chunks : List Chunk) (q : List ℚ)
    (top_k : Nat) : Option (List Hit) :=
  if (embs.map (·.length)).sum = 0 then some []
  else
    match argTopK (simsOf q embs) top_k with
    | none => none
    | some idx =>
      mapMOpt (fun i =>
        (chunks.get? i).map fun ch =>
          { score := simAt (simsOf q embs) i, id := ch.id, source := ch.source,
            page := ch.page, text := ch.text }) idx

/-- Total form of the hit built for index `i` (equal to the one built by
`retrieve` whenever `i` is in range). -/
def hitOfD (sims : List ℚ) (chunks : List Chunk) (i : Nat) : Hit :=
  let ch := chunks.getD i default
  { score := simAt sims i, id := ch.id, source := ch.source,
    page := ch.page, text := ch.text }

/-- What the source's selection pipeline guarantees about the index list
`np.argpartition(sims, -k)[-k:]` reordered by `np.argsort(-sims[idx])`
(numpy's documented contract): the list holds `k` distinct in-range
positions, in non-increasing score order, and every listed position
scores at least every unlisted one. Which tied positions straddling the
`k`-boundary are listed, and the relative order of listed equal scores,
are implementation details (introselect, non-stable quicksort) that
numpy leaves unspecified. -/
def AdmissibleTopK (sims : List ℚ) (k : Nat) (idx : List Nat) : Prop :=
  idx.length = k ∧ idx.Nodup ∧ (∀ i ∈ idx, i < sims.length) ∧
  idx.Pairwise (fun i j => simAt sims j ≤ simAt sims i) ∧
  (∀ i ∈ idx, ∀ j < sims.length, j ∉ idx → simAt sims j ≤ simAt sims i)

/-- The stable (insertion-order-tie) determinization of the selection:
descending stable sort of all positions, take `k`. It is one admissible
selection among others (`stableTopKSel_admissible`). -/
def stableTopKSel (sims : List ℚ) (k : Nat) : List Nat :=
  (sortRank sims (List.range sims.length)).take k

/-- Models `rag.retrieve` (rag.py lines 246–273) with the numpy index
selection abstracted: `argsel` stands for the composite
`np.argpartition(sims, -top_k)[-top_k:]` + `idx[np.argsort(-sims[idx])]`,
which numpy pins down only up to `AdmissibleTopK`, so claim C1 is
settled for every admissible `argsel`. The guard, the bound check
(the `ValueError` case of `np.argpartition`, see `kthOf`) and the hit
construction are exactly those of `retrieve`. -/
def retrieveWith (argsel : List ℚ → Nat → List Nat) (embs : List (List ℚ))
    (chunks : List Chunk) (q : List ℚ) (top_k : Nat) : Option (List Hit) :=
  if (embs.map (·.length)).sum = 0 then some []
  else if 0 ≤ kthOf (simsOf q embs).length top_k ∧
      kthOf (simsOf q embs).length top_k < ((simsOf q embs).length : Int) then
    mapMOpt (fun i =>
      (chunks.get? i).map fun ch =>
        { score := simAt (simsOf q embs) i, id := ch.id, source := ch.source,
          page := ch.page, text := ch.text }) (argsel (simsOf q embs) top_k)
  else none

/-- Position of the last newline inside the maximal whitespace run at the
head of `rest`, if any. Seen from a position holding `'\n'`, the greedy
separator `\n\s*\n` of `re.split(r"\n\s*\n", text)` extends exactly to
that newline. -/
def lastNlInRun (rest : List Char) : Option Nat :=
  let run := rest.takeWhile isPySpace
  (run.reverse.findIdx? fun c => c = '\n').map fun j => run.length - 1 - j

/-- Models `re.split(r"\n\s*\n", text)` (the paragraph split of
`rag._split_into_chunks`, rag.py line 63): scan for non-overlapping
leftmost separator matches, each a newline, a greedy run of whitespace
and a final newline. `acc` is the reversed current part; every step
consumes at least one character, so `fuel = length + 1` always reaches
the real base case (structural fuel keeps the function kernel-reducible). -/
def blankSplitAux : Nat → List Char → List Char → List (List Char)
  | 0, acc, _ => [acc.reverse]
  | fuel + 1, acc, s =>
    match s with
    | [] => [acc.reverse]
    | c :: rest =>
      if c = '\n' then
        match lastNlInRun rest with
        | some t => acc.reverse :: blankSplitAux fuel [] (rest.drop (t + 1))
        | none => blankSplitAux fuel (c :: acc) rest
      else blankSplitAux fuel (c :: acc) rest

/-- Wrapper for `re.split(r"\n\s*\n", text)`. -/
def blankSplit (text : List Char) : List (List Char) :=
  blankSplitAux (text.length + 1) [] text

/-- A sentence-final punctuation character (`[.!?]`). -/
def isSentP (c : Char) : Bool := c = '.' || c = '!' || c = '?'

/-- Models `re.split(r"(?<=[.!?])\s+", p)` (the sentence split of
`rag._split_into_chunks`, rag.py line 78): a separator is a maximal
whitespace run immediately preceded by `.`, `!` or `?`. Fuel as in
`blankSplitAux`. -/
def sentSplitAux : Nat → List Char → List Char → List (List Char)
  | 0, acc, _ => [acc.reverse]
  | fuel + 1, acc, s =>
    match s with
    | [] => [acc.reverse]
    | c :: rest =>
      if isSentP c && (match rest with | [] => false | d :: _ => isPySpace d) then
        (c :: acc).reverse :: sentSplitAux fuel [] (rest.drop (rest.takeWhile isPySpace).length)
      else sentSplitAux fuel (c :: acc) rest

/-- Wrapper for `re.split(r"(?<=[.!?])\s+", p)`. -/
def sentSplit (p : List Char) : List (List Char) :=
  sentSplitAux (p.length + 1) [] p

/-- Python `sep.join(parts)` for a one-character separator. -/
def joinSep (sep : Char) : List (List Char) → List Char
  | [] => []
  | [u] => u
  | u :: v :: rest => u ++ sep :: joinSep sep (v :: rest)

/-- Python `l[-n:]` for `n ≥ 1`: the last `min n (length l)` elements. -/
def takeLast (n : Nat) (l : List α) : List α := l.drop (l.length - n)

/-- The mutable state of `rag._split_into_chunks`'s packing loop:
`buff`, `size` and the accumulated `chunks` (rag.py lines 64–66). -/
structure ChunkState where
  buff : List (List Char)
  size : Nat
  chunks : List (List Char)
deriving DecidableEq

/-- Models `flush()` (rag.py lines 68–73): a non-empty buffer is joined with
newlines, stripped and appended as a chunk. -/
def flushBuf (st : ChunkState) : ChunkState :=
  if st.buff = [] then st
  else { buff := [], size := 0,
         chunks := st.chunks ++ [pyStrip (joinSep '\n' st.buff)] }

/-- Python `buff.append(u); size += len(u) + 1`. -/
def pushUnit (st : ChunkState) (u : List Char) : ChunkState :=
  { st with buff := st.buff ++ [u], size := st.size + u.length + 1 }

/-- Adding one unit (paragraph or sentence) to the buffer: flush first
when the unit would overflow `max_chars` and the buffer is non-empty
(rag.py lines 80–83 and 85–88, which are textually identical). -/
def addUnit (max_chars : Nat) (st : ChunkState) (u : List Char) : ChunkState :=
  if st.size + u.length + 1 > max_chars ∧ st.size > 0 then pushUnit (flushBuf st) u
  else pushUnit st u

/-- Processing one paragraph (rag.py lines 75–88): an oversized
paragraph is further split into sentences, each added as a unit;
otherwise the paragraph itself is the unit. -/
def procPara (max_chars : Nat) (st : ChunkState) (p : List Char) : ChunkState :=
  if p.length > max_chars then (sentSplit p).foldl (addUnit max_chars) st
  else addUnit max_chars st p

/-- The list `paras` (rag.py line 63): blank-line split, strip, drop empties. -/
def parasOf (text : List Char) : List (List Char) :=
  ((blankSplit text).map pyStrip).filter (· ≠ [])

/-- The atomic units the packing loop of `rag._split_into_chunks`
actually appends to the buffer: sentences of oversized paragraphs,
otherwise whole paragraphs. -/
def unitsOf (text : List Char) (max_chars : Nat) : List (List Char) :=
  (parasOf text).flatMap fun p =>
    if p.length > max_chars then sentSplit p else [p]

/-- The pre-overlap chunk list of `rag._split_into_chunks` (rag.py lines
63–90): paragraph split, greedy packing of units into the buffer with
flushes, and the final flush. -/
def rawChunks (text : List Char) (max_chars : Nat) : List (List Char) :=
  (flushBuf ((parasOf text).foldl (procPara max_chars) ⟨[], 0, []⟩)).chunks

/-- The overlap pass of `rag._split_into_chunks` (rag.py lines 93–104):
for `overlap > 0` every chunk past the first is prepended with the
`overlap`-char tail of its predecessor and a newline, then stripped. -/
def split_into_chunks (text : List Char) (max_chars overlap : Nat) : List (List Char) :=
  if overlap = 0 ∨ rawChunks text max_chars = [] then rawChunks text max_chars
  else
    (List.range (rawChunks text max_chars).length).map fun i =>
      if i = 0 then (rawChunks text max_chars).getD 0 []
      else pyStrip (takeLast overlap ((rawChunks text max_chars).getD (i - 1) []) ++
        '\n' :: (rawChunks text max_chars).getD i [])

/-- Python `str.split()` with no argument: split on whitespace runs,
dropping empty parts. `acc` is the reversed current word. -/
def pySplitAux (acc : List Char) : List Char → List (List Char)
  | [] => if acc = [] then [] else [acc.reverse]
  | c :: rest =>
    if isPySpace c then
      if acc = [] then pySplitAux [] rest
      else acc.reverse :: pySplitAux [] rest
    else pySplitAux (c :: acc) rest

/-- Python `" ".join(chunk.split())` (ingestion.py line 102). -/
def wsNorm (s : List Char) : List Char := joinSep ' ' (pySplitAux [] s)

/-- The `while start < len(toks)` loop of `ingestion.chunk_text`
(ingestion.py lines 99–105). Each pass decodes the token slice
`toks[start : start+tpc]`, whitespace-normalises it, keeps it when
non-blank and advances by `step`; `fuel` bounds the unrolling (the
caller passes enough for the loop to finish, since `step ≥ 1`). -/
def ctLoop (decF : List Nat → List Char) (toks : List Nat) (tpc step : Nat) :
    Nat → Nat → List (List Char)
  | _, 0 => []
  | start, fuel + 1 =>
    if start < toks.length then
      if pyStrip (wsNorm (decF ((toks.drop start).take tpc))) = [] then
        ctLoop decF toks tpc step (start + step) fuel
      else
        wsNorm (decF ((toks.drop start).take tpc)) ::
          ctLoop decF toks tpc step (start + step) fuel
    else []

/-- Models `ingestion.chunk_text` (ingestion.py lines 93–106) with the tiktoken
encoder/decoder supplied as collaborators `encF`/`decF` (tokens are
opaque naturals). -/
def chunk_text (encF : List Char → List Nat) (decF : List Nat → List Char)
    (text : List Char) (tokens_per_chunk overlap : Nat) : List (List Char) :=
  let toks := encF text
  let step := max 1 (tokens_per_chunk - overlap)
  ctLoop decF toks tokens_per_chunk step 0 (toks.length + 1)

/-- Buffer footprint as accounted by the `size` counter of
`rag._split_into_chunks`: each unit costs its length plus one. -/
def bufSize (l : List (List Char)) : Nat := (l.map fun u => u.length + 1).sum

/-- The deny list `bot.BAD_HOSTS` (bot.py lines 58–61). -/
def BAD_HOSTS : List String :=
  ["oshibok-net.ru", "obrazovaka.ru", "gramota.ru",
   "rus.stackexchange.com", "stackexchange.com"]

/-- The deny list `bot.BAD_URL_PARTS` (bot.py line 62). -/
def BAD_URL_PARTS : List String :=
  ["login", "signin", "auth", "callback", "account", "microsoftonline", "oauth", "sso"]

/-- One raw result dict yielded by the DDGS text-search generator, with
the optional fields `bot._web_search_impl` reads via `.get`. -/
structure RawResult where
  title : Option String
  source : Option String
  href : Option String
  url : Option String
  link : Option String
  body : Option String
deriving DecidableEq

/-- One `{title, url, snippet}` dict of `bot._web_search_impl`'s output. -/
structure SearchItem where
  title : String
  url : String
  snippet : String
deriving DecidableEq

/-- The per-result body of `bot._web_search_impl`'s loop (bot.py lines
348–356): compute the title and the stripped url, skip the result
(`continue` — `none` here) when the url is blank or its lowering
contains a deny-listed host or url substring. -/
def acceptResult (r : RawResult) : Option SearchItem :=
  if pyStripS (pyOrStr r.href (pyOrStr r.url (pyOrStr r.link ""))) = "" then none
  else if BAD_HOSTS.any fun bad =>
      py_in bad (pyLowerS (pyStripS (pyOrStr r.href (pyOrStr r.url (pyOrStr r.link ""))))) then none
  else if BAD_URL_PARTS.any fun part =>
      py_in part (pyLowerS (pyStripS (pyOrStr r.href (pyOrStr r.url (pyOrStr r.link ""))))) then none
  else some ⟨pyOrStr r.title (pyOrStr r.source "Источник"),
    pyStripS (pyOrStr r.href (pyOrStr r.url (pyOrStr r.link ""))), pyOrStr r.body ""⟩

/-- The accumulation loop of `bot._web_search_impl` (bot.py lines
348–357): accepted results are appended until `len(out) >= max_results`
breaks the loop (note the check runs after the append, so even
`max_results <= 0` lets one result through). `cnt` is `len(out)`. -/
def searchLoop (max_results : Int) : List RawResult → Int → List SearchItem
  | [], _ => []
  | r :: rest, cnt =>
    match acceptResult r with
    | none => searchLoop max_results rest cnt
    | some o =>
      if cnt + 1 ≥ max_results then [o]
      else o :: searchLoop max_results rest (cnt + 1)

/-- Models `bot._web_search_impl` (bot.py lines 344–360); the DDGS generator's
yielded dicts are supplied as `raws` (an exception from the generator is
swallowed by the surrounding `try`, returning what was accumulated; an
error before the first yield returns `[]`, which the `raws = []` case
covers). -/
def web_search_impl (raws : List RawResult) (max_results : Int) : List SearchItem :=
  searchLoop max_results raws 0

/-- The httpx response as read by `bot._web_fetch_impl`: final URL after
redirects, body text, and whether `raise_for_status()` passes. -/
structure HttpResp where
  finalUrl : String
  body : String
  ok : Bool
deriving DecidableEq

/-- The `{"url", "text"}` dict returned by `bot._web_fetch_impl`. -/
structure FetchOut where
  url : String
  text : String
deriving DecidableEq

/-- Models `bot._web_fetch_impl` (bot.py lines 365–378). `httpGet` models
the httpx client call: a connection-level failure or a non-2xx status
(`raise_for_status`) raises into the `except` path. On a successful
response, line 370 evaluates `resp.url.lower()` — but
`httpx.Response.url` is an `httpx.URL` object (this code requires
httpx >= 0.20, since it passes `follow_redirects=` to `Client`), and
`httpx.URL` has no `.lower()` method, so an `AttributeError` is raised
before the deny-list test, the `lxml` script/style stripping, the
`_clean_text` call and the `[:max_chars]` slice can run: everything past
line 370 is dead code. The blanket `except Exception` turns every one of
these paths into `{"url": url, "text": ""}`, so the function returns
empty text on every input. -/
def web_fetch_impl (httpGet : String → Except Unit HttpResp) (url : String)
    (max_chars : Int) : FetchOut :=
  match httpGet url with
  | .error _ => ⟨url, ""⟩
  | .ok resp =>
    if resp.ok = false then ⟨url, ""⟩
    else ⟨url, ""⟩

/-- A Python exception value (only its presence matters to the claims). -/
structure PyErr where
  msg : String
deriving DecidableEq

/-- A JSON scalar as it reaches `int(...)` in the tool-argument
handling: either already an int or a string. -/
inductive PyVal
  | pint (n : Int)
  | pstr (s : String)
deriving DecidableEq

/-- Python `int(v)` on such a scalar: ints pass through, strings must
spell an integer, anything else raises `ValueError`. -/
def pyInt : PyVal → Except PyErr Int
  | .pint n => .ok n
  | .pstr s =>
    match s.toInt? with
    | some n => .ok n
    | none => .error ⟨"ValueError"⟩

/-- The parsed JSON arguments of one tool call, after
`json.loads(call.function.arguments or "{}")` (a parse failure is
caught and yields `{}`, i.e. every field `none`). `query`/`url` are
strings per the tool schema; `max_results`/`max_chars` are kept as raw
scalars because the code pipes them through `int(...)`. -/
structure ToolArgs where
  query : Option String
  max_results : Option PyVal
  url : Option String
  max_chars : Option PyVal
deriving DecidableEq

/-- One pending tool invocation (`call.id`, `call.function.name`,
parsed arguments). -/
structure ToolCall where
  id : String
  fname : String
  args : ToolArgs
deriving DecidableEq

/-- The payload serialized into one tool output: search results, a fetch
result, or the literal `json.dumps({"error": "unknown tool"})` produced
for any unrecognised tool name (bot.py line 422). -/
inductive Payload
  | search (results : List SearchItem)
  | fetch (r : FetchOut)
  | unknownTool
deriving DecidableEq

/-- One `{"tool_call_id", "output"}` dict submitted back to the run. -/
structure ToolOutput where
  tool_call_id : String
  output : Payload
deriving DecidableEq

/-- A run status as observed by one `runs.retrieve` poll; a
`requires_action` status carries the pending tool calls. Statuses other
than the named ones are `otherStatus`. -/
inductive RunStatus
  | queued
  | in_progress
  | requires_action (tool_calls : List ToolCall)
  | completed
  | failed
  | cancelled
  | expired
  | otherStatus (s : String)
deriving DecidableEq

/-- One `c` element of an assistant message's `content` list. -/
structure MsgPart where
  ctype : String
  value : String
deriving DecidableEq

/-- One thread message (`m.role`, `m.content`). -/
structure ThreadMsg where
  role : String
  content : List MsgPart
deriving DecidableEq

/-- The external world of `bot.answer_via_assistant`: thread/run
creation, the company extraction (`extract_current_company_from_local_index`,
whose internal `rag.retrieve` call may raise), the status returned by
the `i`-th poll, tool-output submission, the message listing of the
`completed` branch (newest first, as the API returns with
`order="desc", limit=10`), and the web collaborators. -/
structure AssistantEnv where
  create : Except PyErr Unit
  current_company : Except PyErr (Option String)
  statusAt : Nat → Except PyErr RunStatus
  submit : List ToolOutput → Except PyErr Unit
  messages : Except PyErr (List ThreadMsg)
  ddgs : String → List RawResult
  httpGet : String → Except Unit HttpResp

/-- The headcount trigger substrings (bot.py lines 409–411). -/
def HEADCOUNT_TRIGGERS : List String :=
  ["headcount", "employee", "employees", "численност", "штат", "размер компан", "сколько человек"]

/-- The replacement query injected for a headcount question
(bot.py line 413). -/
def headcountQuery (company : String) : String :=
  company ++ " employees headcount численность сотрудников штат размер компании"

/-- The `web_search` query rewrite (bot.py lines 409–413): when the
query looks like a headcount question, a current company is known
(non-`None`, non-empty — Python truthiness) and its lowering does not
already occur in the query, substitute the enriched company query. -/
def rewriteQuery (current_company : Option String) (q : String) : String :=
  let lower := pyLowerS q
  let trigger := HEADCOUNT_TRIGGERS.any fun s => py_in s lower
  match current_company with
  | none => q
  | some c =>
    if trigger ∧ c ≠ "" ∧ py_in (pyLowerS c) lower = false then headcountQuery c else q

/-- One iteration of `for call in tool_calls` in the `requires_action`
branch (bot.py lines 400–422): `web_search` and `web_fetch` run their
implementations on the (possibly defaulted) arguments; any other name
yields the explicit unknown-tool payload. An `int(...)` failure on a
malformed argument propagates as an exception. -/
def handleCall (env : AssistantEnv) (company : Option String) (call : ToolCall) :
    Except PyErr ToolOutput :=
  if call.fname = "web_search" then
    match pyInt (call.args.max_results.getD (.pint 5)) with
    | .error e => .error e
    | .ok k =>
      .ok ⟨call.id, .search (web_search_impl
        (env.ddgs (rewriteQuery company (pyStripS (pyOrStr call.args.query "")))) k)⟩
  else if call.fname = "web_fetch" then
    match pyInt (call.args.max_chars.getD (.pint 4000)) with
    | .error e => .error e
    | .ok mc =>
      .ok ⟨call.id, .fetch (web_fetch_impl env.httpGet
        (pyStripS (pyOrStr call.args.url "")) mc)⟩
  else .ok ⟨call.id, .unknownTool⟩

/-- Effectful map over `Except` mirroring the output-building `for`
loop: an exception in any iteration aborts the whole loop. -/
def mapMEx (f : α → Except ε β) : List α → Except ε (List β)
  | [] => .ok []
  | a :: as =>
    match f a with
    | .error e => .error e
    | .ok b =>
      match mapMEx f as with
      | .error e => .error e
      | .ok bs => .ok (b :: bs)

/-- The `completed` branch (bot.py lines 427–437): first
assistant-authored message in the newest-first listing, its `text`
parts joined with newlines and stripped; a blank answer becomes `None`
(`answer or None`), as does the absence of any assistant message. -/
def latestAssistantAnswer (msgs : List ThreadMsg) : Option String :=
  match msgs.find? fun m => m.role = "assistant" with
  | none => none
  | some m =>
    let parts := ((m.content.filter fun c => c.ctype = "text").map fun c => c.value)
    let answer := pyStripS ⟨joinSep '\n' (parts.map fun p => p.data)⟩
    if answer = "" then none else some answer

/-- The `while True` polling loop of `bot.answer_via_assistant` (bot.py
lines 392–438). `i` counts polls (`env.statusAt i` is what the `i`-th
`runs.retrieve` returns); `fuel` bounds the unrolling, and the outer
`none` of the result means the loop is still polling after `fuel`
iterations — the source loop itself has no bound. `some r` models
`return r`. -/
def pollLoop (env : AssistantEnv) (company : Option String) :
    Nat → Nat → Except PyErr (Option (Option String))
  | _, 0 => .ok none
  | i, fuel + 1 =>
    match env.statusAt i with
    | .error e => .error e
    | .ok .queued => pollLoop env company (i + 1) fuel
    | .ok .in_progress => pollLoop env company (i + 1) fuel
    | .ok (.requires_action calls) =>
      match mapMEx (handleCall env company) calls with
      | .error e => .error e
      | .ok outs =>
        match env.submit outs with
        | .error e => .error e
        | .ok _ => pollLoop env company (i + 1) fuel
    | .ok .completed =>
      match env.messages with
      | .error e => .error e
      | .ok msgs => .ok (some (latestAssistantAnswer msgs))
    | .ok _ => .ok (some none)

/-- The body of `bot.answer_via_assistant`'s `try:` block (bot.py lines
385–438): thread/message/run creation, company extraction, then the
polling loop. -/
def assistantBody (env : AssistantEnv) (fuel : Nat) :
    Except PyErr (Option (Option String)) :=
  match env.create with
  | .error e => .error e
  | .ok _ =>
    match env.current_company with
    | .error e => .error e
    | .ok company => pollLoop env company 0 fuel

/-- Models `bot.answer_via_assistant` (bot.py lines 381–440): a falsy
`settings.assistant_id` (unset or empty) short-circuits to `None`; the
surrounding `try/except` converts every exception raised by the body
into `None`. Result `some r` models a Python return of `r` (`r = none`
being Python `None`); the outer `none` means the unbounded polling loop
is still running after `fuel` polls. -/
def answer_via_assistant (assistant_id : Option String) (env : AssistantEnv)
    (fuel : Nat) : Option (Option String) :=
  match assistant_id with
  | none => some none
  | some aid =>
    if aid = "" then some none
    else
      match assistantBody env fuel with
      | .error _ => some none
      | .ok r => r

/-- One candidate FAQ topic of the fixed catalog `ingestion.FAQ_TOPICS`:
`(key, label, full question)`. -/
structure FaqTopic where
  key : String
  label : String
  full : String
deriving DecidableEq

/-- The constant `ingestion.CTA` (ingestion.py line 16), appended to every cached
reply. -/
def CTA : String := "Вы также можете задать вопрос на естественном языке."

/-- The catalog `ingestion.FAQ_TOPICS` (ingestion.py lines 19–58). -/
def FAQ_TOPICS : List FaqTopic :=
  [⟨"who", "Кто вы сейчас?",
    "Кто вы сейчас? Текущая должность и целевая роль (CEO / COO / CTO / CPO / Head of R&D и т.п.)."⟩,
   ⟨"domain", "Отрасль/домен",
    "Отрасль и домен. FinTech, Telco, Retail, Industrial, AI/ML, GovTech и пр."⟩,
   ⟨"scale_company", "Масштаб компании",
    "Масштаб компании. Выручка/EBITDA, стадия (startup/scale-up/корпорация), число сотрудников, география."⟩,
   ⟨"scope", "Масштаб ответственности",
    "Масштаб ответственности. P&L, CAPEX/OPEX, бюджет, зона (продукт/технологии/операции/продажи)."⟩,
   ⟨"team", "Команда",
    "Команда. Сколько прямых репортов / общий размер функции / уровни (VP/Director/Lead)."⟩,
   ⟨"skills", "Ключевые компетенции",
    "Ключевые компетенции. Стратегия, трансформация, M&A, оргструктура, выход на новые рынки и т.д."⟩,
   ⟨"achievements", "Топ-достижения (цифры)",
    "Топ-достижения с цифрами. 2–4 bullets: рост %, экономия $, time-to-market, NPS, SLA, ROI."⟩,
   ⟨"location", "Локация/мобильность",
    "Локация и мобильность. Город, готовность к релокации/командировкам; языки (уровень)."⟩,
   ⟨"legal", "Правовой статус",
    "Правовой статус. Рабочее разрешение/гражданство, non-compete/notice period (если критично)."⟩,
   ⟨"transformations", "Стратегические развороты",
    "Стратегические развороты. Какие трансформации (digital/операционная/продуктовая) и к чему привели."⟩,
   ⟨"from_scratch", "С нуля (функции)",
    "Построение функций «с нуля». Архитектура процессов, метрики, системы управления (OKR/KPI, governance)."⟩,
   ⟨"crisis", "Кризисы/антикризис",
    "Кризисы и антикризис. Что именно починили: издержки, отток клиентов, инциденты безопасности."⟩,
   ⟨"global", "Глобальный контекст",
    "Глобальный контекст. Международные рынки/мультикультура, распределённые команды."⟩,
   ⟨"stakeholders", "Стейкхолдер-менеджмент",
    "Стейкхолдер-менеджмент. Совет директоров, акционеры, регуляторы, ключевые клиенты/партнёры."⟩,
   ⟨"reputation", "Репутация/референсы",
    "Репутация/референсы. Публичные кейсы, награды, публикации, патенты, борд-роль."⟩,
   ⟨"pnl", "P&L и результат",
    "P&L и результат. Например: «Отвечал за P&L $120M; EBITDA +4.2 п.п. за 12 мес»."⟩,
   ⟨"system", "Системность",
    "Системность. Как управляли: оргдизайн, cadence, OKR, риск-менеджмент."⟩,
   ⟨"leadership", "Лидерство/преемственность",
    "Лидерство и преемственность. Кого вырастили, текучесть, bench strength."⟩,
   ⟨"change", "Управление изменениями",
    "Управление изменениями. Какие барьеры сняли, как мерили эффект."⟩]

/-- One `{key, label, full, reply}` record stored into
`data/faq_cache.json`. -/
structure FaqEntry where
  key : String
  label : String
  full : String
  reply : String
deriving DecidableEq

/-- The FAQ loop of `ingestion.build_and_save_cache` (ingestion.py lines
155–176): for every catalog topic, retrieve context for the full
question (`retrieveF` models `rag.retrieve`; a raised exception there
would abort the whole build, so only completed retrievals are modelled);
skip the topic when the context is empty; synthesize a reply (`chatF`
models `_chat_completion(build_messages(full) + style instruction)`,
whose returned string is unconstrained) and strip it; skip when the
non-answer classifier accepts it; otherwise append `\n\n + CTA` and
store the record. -/
def build_faq_topics (retrieveF : String → List Hit) (chatF : FaqTopic → String) :
    List FaqEntry :=
  FAQ_TOPICS.filterMap fun t =>
    if retrieveF t.full = [] then none
    else if is_empty_faq_answer (pyStripS (chatF t)) then none
    else some ⟨t.key, t.label, t.full, pyStripS (chatF t) ++ "\n\n" ++ CTA⟩

/-- One raw item of the persisted `faq_cache.json` topics list as read
back by `bot.load_cache` (fields read with `.get`, so each may be
missing). -/
structure RawTopic where
  key : Option String
  label : Option String
  full : Option String
  reply : Option String
deriving DecidableEq

/-- A topic retained in the active set by `bot.load_cache`. -/
structure LoadedTopic where
  key : String
  label : String
  full : String
  reply : String
deriving DecidableEq

/-- The per-item body of `bot.load_cache`'s FAQ loop (bot.py lines
130–137): each field is `(item.get(...) or "").strip()`, and the item
is kept only when all four are non-empty and the reply is not
classified as an empty message. A kept item contributes
`(key, label, full)` to `ACTIVE_FAQ_TOPICS` and `key -> reply` to
`FAQ_CACHE` (modelled as the projections of one record). -/
def accept_topic (item : RawTopic) : Option LoadedTopic :=
  if pyStripS (pyOrStr item.key "") ≠ "" ∧ pyStripS (pyOrStr item.label "") ≠ "" ∧
      pyStripS (pyOrStr item.full "") ≠ "" ∧ pyStripS (pyOrStr item.reply "") ≠ "" ∧
      is_empty_message (some (pyStripS (pyOrStr item.reply ""))) = false
  then some ⟨pyStripS (pyOrStr item.key ""), pyStripS (pyOrStr item.label ""),
    pyStripS (pyOrStr item.full ""), pyStripS (pyOrStr item.reply "")⟩
  else none

/-- Models the FAQ loop of `bot.load_cache` over the whole topics payload. -/
def load_cache_topics (payload : List RawTopic) : List LoadedTopic :=
  payload.filterMap accept_topic

/-- The `ACTIVE_FAQ_TOPICS` list rebuilt by `bot.load_cache`. -/
def ACTIVE_FAQ_TOPICS (payload : List RawTopic) : List (String × String × String) :=
  (load_cache_topics payload).map fun e => (e.key, e.label, e.full)

/-- The `FAQ_CACHE` mapping rebuilt by `bot.load_cache` (as an
association list in insertion order). -/
def FAQ_CACHE (payload : List RawTopic) : List (String × String) :=
  (load_cache_topics payload).map fun e => (e.key, e.reply)

/-- An environment whose run never leaves `in_progress`. -/
def envAlwaysInProgress : AssistantEnv :=
  { create := .ok (), current_company := .ok none,
    statusAt := fun _ => .ok .in_progress,
    submit := fun _ => .ok (), messages := .ok [],
    ddgs := fun _ => [], httpGet := fun _ => .error () }

/-- An environment whose thread creation raises. -/
def envCreateErr : AssistantEnv :=
  { envAlwaysInProgress with create := .error ⟨"ConnectionError"⟩ }

/-- An environment whose run completes immediately with one assistant
message. -/
def envDone : AssistantEnv :=
  { envAlwaysInProgress with
    statusAt := fun _ => .ok .completed,
    messages := .ok [⟨"assistant", [⟨"text", "Готово"⟩]⟩] }

/-- A well-formed `web_search` tool call. -/
def callSearch : ToolCall :=
  ⟨"call_1", "web_search", ⟨some "опыт работы", some (.pint 5), none, none⟩⟩

/-- A tool call whose name is not a known tool. -/
def callUnknown : ToolCall :=
  ⟨"call_2", "file_write", ⟨none, none, none, none⟩⟩

/-- A successful fetch response whose final URL sits on a deny-listed
host (`oshibok-net.ru ∈ BAD_HOSTS`). -/
def cexResp : HttpResp := ⟨"https://oshibok-net.ru/stranica", "staff 500 employees", true⟩

/-- An http client resolving every URL to `cexResp`. -/
def cexGet : String → Except Unit HttpResp := fun _ => .ok cexResp

/-- A raw search result with a clean URL. -/
def rawGood : RawResult :=
  ⟨some "Profile", none, some "https://example.com/profile", none, none, some "био"⟩

/-- A raw search result on a deny-listed host. -/
def rawBadHost : RawResult :=
  ⟨some "Bad", none, some "https://gramota.ru/page", none, none, some "x"⟩

/-- A raw search result whose URL contains a deny-listed substring. -/
def rawBadPart : RawResult :=
  ⟨some "Auth", none, some "https://example.com/oauth/start", none, none, some "y"⟩

/-- A synthetic stored index: three 2-dimensional rows. -/
def embsEx : List (List ℚ) := [[1, 0], [0, 1], [1, 1]]

/-- Chunk records parallel to `embsEx`. -/
def chunksEx : List Chunk :=
  [⟨"cv-1", "cv.pdf", some 1, "alpha"⟩,
   ⟨"cv-2", "cv.pdf", some 1, "beta"⟩,
   ⟨"cv-3", "cv.pdf", some 2, "gamma"⟩]

/-- A two-row index (fewer rows than the default `top_k = 6`). -/
def embsSmall : List (List ℚ) := [[1], [2]]

/-- Chunk records parallel to `embsSmall`. -/
def chunksSmall : List Chunk :=
  [⟨"cv-1", "cv.pdf", none, "alpha"⟩, ⟨"cv-2", "cv.pdf", none, "beta"⟩]

/-- A retrieval collaborator returning one hit for the first catalog
question and nothing for every other topic. -/
def retrieveF0 : String → List Hit := fun q =>
  if q = "Кто вы сейчас? Текущая должность и целевая роль (CEO / COO / CTO / CPO / Head of R&D и т.п.)." then
    [⟨1, "cv-1", "cv.pdf", some 1, "Руководитель AI-направления"⟩]
  else []

/-- A completion collaborator returning a fixed substantive reply. -/
def chatF0 : FaqTopic → String := fun _ => "Руководитель AI-направления, 20 лет опыта."

/-- A persisted FAQ payload item that passes every load check. -/
def rawTopicGood : RawTopic :=
  ⟨some "who", some "Кто вы сейчас?", some "Кто вы сейчас? Полный вопрос.",
   some "Руководитель AI-направления, 20 лет опыта."⟩

/-- A persisted FAQ payload item whose reply is a non-answer. -/
def rawTopicBad : RawTopic :=
  ⟨some "team", some "Команда", some "Команда. Полный вопрос.", some "нет информации"⟩

/-- A token encoder for witnesses: one token per character. -/
def encF0 : List Char → List Nat := fun s => List.range s.length

/-- A token decoder for witnesses: one letter per token. -/
def decF0 : List Nat → List Char := fun toks => List.replicate toks.length 'a'

/-- A pre-overlap chunk is good when it fits strictly under `max_chars`
(the packing invariant) or is the strip of a single atomic unit of
length at least `max_chars`. -/
def goodChunk (m : Nat) (units : List (List Char)) (c : List Char) : Prop :=
  c.length + 1 ≤ m ∨ ∃ u ∈ units, m ≤ u.length ∧ c.length ≤ u.length

/-- The packing-loop invariant of `rag._split_into_chunks`: every
emitted chunk is good, the `size` counter equals the buffer footprint,
and the buffer either fits in `max_chars` or is a single oversized
unit. -/
def ChunkInv (m : Nat) (units : List (List Char)) (st : ChunkState) : Prop :=
  (∀ c ∈ st.chunks, goodChunk m units c) ∧
  st.size = bufSize st.buff ∧
  (st.size ≤ m ∨ ∃ u ∈ units, st.buff = [u] ∧ m < u.length + 1)

/-! Helper lemmas for the ranking selection. -/

theorem rankBefore_iff (sims : List ℚ) (i j : Nat) :
    rankBefore sims i j = true ↔ RankLT sims i j := by
  simp [rankBefore, RankLT]

theorem rankLT_trans (sims : List ℚ) {i j k : Nat}
    (h1 : RankLT sims i j) (h2 : RankLT sims j k) : RankLT sims i k := by
  rcases h1 with h1 | ⟨e1, l1⟩ <;> rcases h2 with h2 | ⟨e2, l2⟩
  · exact Or.inl (h2.trans h1)
  · exact Or.inl (e2 ▸ h1)
  · exact Or.inl (by rw [e1]; exact h2)
  · exact Or.inr ⟨e1.trans e2, l1.trans l2⟩

theorem rankLT_of_not (sims : List ℚ) {i j : Nat}
    (hne : i ≠ j) (h : ¬ RankLT sims i j) : RankLT sims j i := by
  rcases lt_trichotomy (simAt sims i) (simAt sims j) with hlt | heq | hgt
  · exact Or.inl hlt
  · have hij : ¬ i < j := fun hij => h (Or.inr ⟨heq, hij⟩)
    exact Or.inr ⟨heq.symm, by omega⟩
  · exact absurd (Or.inl hgt) h

theorem perm_insRank (sims : List ℚ) (x : Nat) (l : List Nat) :
    List.Perm (insRank sims x l) (x :: l) := by
  induction l with
  | nil => simp [insRank]
  | cons y ys ih =>
    rw [insRank]
    by_cases h : rankBefore sims x y
    · rw [if_pos h]
    · rw [if_neg h]
      exact (ih.cons y).trans (List.Perm.swap x y ys)

theorem pairwise_insRank {sims : List ℚ} {x : Nat} {l : List Nat}
    (hl : l.Pairwise (RankLT sims)) (hx : ∀ y ∈ l, x ≠ y) :
    (insRank sims x l).Pairwise (RankLT sims) := by
  induction l with
  | nil => simp [insRank]
  | cons y ys ih =>
    rcases List.pairwise_cons.mp hl with ⟨hy, hys⟩
    rw [insRank]
    by_cases h : rankBefore sims x y
    · rw [if_pos h]
      have hxy : RankLT sims x y := (rankBefore_iff sims x y).mp h
      refine List.pairwise_cons.mpr ⟨?_, hl⟩
      intro a ha
      rcases List.mem_cons.mp ha with rfl | ha
      · exact hxy
      · exact rankLT_trans sims hxy (hy a ha)
    · rw [if_neg h]
      have hnb : ¬ RankLT sims x y := fun hr => h ((rankBefore_iff sims x y).mpr hr)
      have hyx : RankLT sims y x :=
        rankLT_of_not sims (hx y (List.mem_cons_self y ys)) hnb
      refine List.pairwise_cons.mpr
        ⟨?_, ih hys fun z hz => hx z (List.mem_cons_of_mem y hz)⟩
      intro a ha
      have ha2 : a = x ∨ a ∈ ys := by
        have := (perm_insRank sims x ys).mem_iff.mp ha
        simpa using this
      rcases ha2 with rfl | ha'
      · exact hyx
      · exact hy a ha'

theorem perm_sortRank (sims : List ℚ) (l : List Nat) :
    List.Perm (sortRank sims l) l := by
  induction l with
  | nil => simp [sortRank]
  | cons x xs ih =>
    have : sortRank sims (x :: xs) = insRank sims x (sortRank sims xs) := rfl
    rw [this]
    exact (perm_insRank sims x (sortRank sims xs)).trans (ih.cons x)

theorem pairwise_sortRank (sims : List ℚ) {l : List Nat} (h : l.Nodup) :
    (sortRank sims l).Pairwise (RankLT sims) := by
  induction l with
  | nil => simp [sortRank]
  | cons x xs ih =>
    rcases List.nodup_cons.mp h with ⟨hx, hxs⟩
    have e : sortRank sims (x :: xs) = insRank sims x (sortRank sims xs) := rfl
    rw [e]
    apply pairwise_insRank (ih hxs)
    intro y hy hxy
    exact hx (hxy ▸ (perm_sortRank sims xs).mem_iff.mp hy)

theorem argTopK_eq (sims : List ℚ) (k : Nat) (hk : 1 ≤ k) (hkn : k ≤ sims.length) :
    argTopK sims k = some ((sortRank sims (List.range sims.length)).take k) := by
  have hk0 : k ≠ 0 := by omega
  unfold argTopK
  rw [if_pos, if_neg hk0]
  unfold kthOf
  rw [if_neg hk0]
  constructor <;> omega

theorem mapMOpt_getD {β : Type} (chunks : List Chunk) (f : Nat → Chunk → β) :
    ∀ idx : List Nat, (∀ i ∈ idx, i < chunks.length) →
      mapMOpt (fun i => (chunks.get? i).map (f i)) idx =
        some (idx.map fun i => f i (chunks.getD i default)) := by
  intro idx
  induction idx with
  | nil => intro _; simp [mapMOpt]
  | cons a as ih =>
    intro h
    have ha : a < chunks.length := h a (List.mem_cons_self a as)
    have hx : chunks[a]? = some chunks[a] := List.getElem?_eq_getElem ha
    have ih' := ih fun i hi => h i (List.mem_cons_of_mem a hi)
    simp only [mapMOpt, List.get?_eq_getElem?, List.getD_eq_getElem?_getD,
      List.map_cons] at ih' ⊢
    rw [hx, ih']
    rfl

theorem mem_take_lt (embs : List (List ℚ)) (q : List ℚ) (k : Nat) :
    ∀ i ∈ (sortRank (simsOf q embs) (List.range (simsOf q embs).length)).take k,
      i < embs.length := by
  intro i hi
  have hmem : i ∈ sortRank (simsOf q embs) (List.range (simsOf q embs).length) :=
    List.mem_of_mem_take hi
  have := (perm_sortRank (simsOf q embs) (List.range (simsOf q embs).length)).mem_iff.mp hmem
  rw [List.mem_range] at this
  simpa [simsOf] using this

theorem retrieve_some_eq (embs : List (List ℚ)) (chunks : List Chunk) (q : List ℚ)
    (k : Nat) (hlen : chunks.length = embs.length) (hk : 1 ≤ k) (hkn : k ≤ embs.length)
    (hs : (embs.map (·.length)).sum ≠ 0) :
    retrieve embs chunks q k =
      some (((sortRank (simsOf q embs) (List.range (simsOf q embs).length)).take k).map
        (hitOfD (simsOf q embs) chunks)) := by
  have hslen : (simsOf q embs).length = embs.length := by simp [simsOf]
  have hmem : ∀ i ∈ (sortRank (simsOf q embs) (List.range (simsOf q embs).length)).take k,
      i < chunks.length := by
    intro i hi
    rw [hlen]
    exact mem_take_lt embs q k i hi
  unfold retrieve
  rw [if_neg hs, argTopK_eq (simsOf q embs) k hk (by rw [hslen]; exact hkn)]
  exact mapMOpt_getD chunks _ _ hmem

theorem rankLT_le {sims : List ℚ} {i j : Nat} (h : RankLT sims i j) :
    simAt sims j ≤ simAt sims i := by
  rcases h with h | ⟨h, _⟩
  · exact le_of_lt h
  · exact le_of_eq h.symm

theorem stableTopKSel_admissible (sims : List ℚ) (k : Nat)
    (hk : 1 ≤ k) (hkn : k ≤ sims.length) :
    AdmissibleTopK sims k (stableTopKSel sims k) := by
  have hperm := perm_sortRank sims (List.range sims.length)
  have hRlen : (sortRank sims (List.range sims.length)).length = sims.length := by
    rw [hperm.length_eq, List.length_range]
  have hRnodup : (sortRank sims (List.range sims.length)).Nodup :=
    hperm.nodup_iff.mpr (List.nodup_range _)
  have hRpw := pairwise_sortRank sims (List.nodup_range sims.length)
  have hmem : ∀ i ∈ stableTopKSel sims k, i < sims.length := by
    intro i hi
    have hiR : i ∈ sortRank sims (List.range sims.length) := List.mem_of_mem_take hi
    have := hperm.mem_iff.mp hiR
    rwa [List.mem_range] at this
  refine ⟨?_, ?_, hmem, ?_, ?_⟩
  · unfold stableTopKSel
    rw [List.length_take, hRlen]
    exact Nat.min_eq_left hkn
  · exact List.Nodup.sublist (List.take_sublist k _) hRnodup
  · exact List.Pairwise.imp rankLT_le
      (List.Pairwise.sublist (List.take_sublist k _) hRpw)
  · intro i hi j hj hnj
    have hjR : j ∈ sortRank sims (List.range sims.length) :=
      hperm.mem_iff.mpr (List.mem_range.mpr hj)
    have hjsplit : j ∈ (sortRank sims (List.range sims.length)).take k
        ++ (sortRank sims (List.range sims.length)).drop k := by
      rw [List.take_append_drop]
      exact hjR
    have hjdrop : j ∈ (sortRank sims (List.range sims.length)).drop k := by
      rcases List.mem_append.mp hjsplit with h1 | h2
      · exact absurd h1 hnj
      · exact h2
    have hsplitpw : ((sortRank sims (List.range sims.length)).take k
        ++ (sortRank sims (List.range sims.length)).drop k).Pairwise
          (RankLT sims) := by
      rw [List.take_append_drop]
      exact hRpw
    exact rankLT_le ((List.pairwise_append.mp hsplitpw).2.2 i hi j hjdrop)

/-- Claim C1 (amended): on an index of `N` stored vectors with
`N ≥ k ≥ 1` (and chunk records parallel to the rows), `retrieve` returns
`k` chunks whose dot products with the embedded query are the `k`
highest in the score sense — every returned chunk's score is at least
every non-returned chunk's score — as hit records sorted in
non-increasing score order. This holds for EVERY index selection
satisfying the guarantees numpy gives for the
`argpartition`/`argsort` composite (`AdmissibleTopK`); which tied chunks
are chosen at the `k`-boundary and the relative order of equal returned
scores are numpy-implementation choices, deterministic for a fixed input
but not the insertion order the claim asserted. -/
theorem retrieve_topk_correct_amended
    (argsel : List ℚ → Nat → List Nat)
    (hadm : ∀ (sims : List ℚ) (k2 : Nat), 1 ≤ k2 → k2 ≤ sims.length →
      AdmissibleTopK sims k2 (argsel sims k2))
    (embs : List (List ℚ)) (chunks : List Chunk) (q : List ℚ) (k : Nat)
    (hlen : chunks.length = embs.length)
    (hk : 1 ≤ k) (hkn : k ≤ embs.length)
    (hs : (embs.map (·.length)).sum ≠ 0) :
    ∃ idx : List Nat,
      retrieveWith argsel embs chunks q k =
        some (idx.map (hitOfD (simsOf q embs) chunks)) ∧
      idx.length = k ∧ idx.Nodup ∧
      (∀ i ∈ idx, i < embs.length) ∧
      idx.Pairwise (fun i j => simAt (simsOf q embs) j ≤ simAt (simsOf q embs) i) ∧
      (∀ i ∈ idx, ∀ j < embs.length, j ∉ idx →
        simAt (simsOf q embs) j ≤ simAt (simsOf q embs) i) := by
  have hslen : (simsOf q embs).length = embs.length := by simp [simsOf]
  obtain ⟨hA1, hA2, hA3, hA4, hA5⟩ :=
    hadm (simsOf q embs) k hk (by rw [hslen]; exact hkn)
  refine ⟨argsel (simsOf q embs) k, ?_, hA1, hA2,
    fun i hi => by rw [← hslen]; exact hA3 i hi, hA4,
    fun i hi j hj hnj => hA5 i hi j (by rw [hslen]; exact hj) hnj⟩
  unfold retrieveWith
  rw [if_neg hs, if_pos]
  · exact mapMOpt_getD chunks _ _ fun i hi => by
      rw [hlen, ← hslen]
      exact hA3 i hi
  · unfold kthOf
    rw [if_neg (by omega : ¬ k = 0), hslen]
    constructor <;> omega

/-- Witness for C1 (amended), instantiating the admissible selection
with the stable determinization on a concrete three-row index, query
`[2, 1]`, `k = 2`. -/
theorem retrieve_topk_correct_amended_witness :
    (chunksEx.length = embsEx.length ∧ 1 ≤ 2 ∧ 2 ≤ embsEx.length ∧
      (embsEx.map (·.length)).sum ≠ 0) ∧
    ∃ idx : List Nat,
      retrieveWith stableTopKSel embsEx chunksEx [2, 1] 2 =
        some (idx.map (hitOfD (simsOf [2, 1] embsEx) chunksEx)) ∧
      idx.length = 2 ∧ idx.Nodup ∧
      (∀ i ∈ idx, i < embsEx.length) ∧
      idx.Pairwise (fun i j =>
        simAt (simsOf [2, 1] embsEx) j ≤ simAt (simsOf [2, 1] embsEx) i) ∧
      (∀ i ∈ idx, ∀ j < embsEx.length, j ∉ idx →
        simAt (simsOf [2, 1] embsEx) j ≤ simAt (simsOf [2, 1] embsEx) i) :=
  ⟨⟨by decide, by decide, by decide, by decide⟩,
   retrieve_topk_correct_amended stableTopKSel
     (fun sims k2 hk hkn => stableTopKSel_admissible sims k2 hk hkn)
     embsEx chunksEx [2, 1] 2 (by decide) (by decide) (by decide) (by decide)⟩

/-- Claim C1 counterexample: on an index of two stored vectors with
equal dot products (`embs = [[1], [1]]`, embedded query `[1]`, `k = 1`)
the index list `[1]` satisfies every guarantee the source's
`argpartition`/`argsort` pipeline provides (`AdmissibleTopK`), yet
violates the insertion-order tie-break the claim asserts: the selected
index 1 does not rank before the non-selected index 0 under
score-then-insertion-order (`RankLT`). numpy leaves tie handling
unspecified (introselect's boundary choice, non-stable quicksort), so a
program behaviour consistent with everything the source guarantees
breaks the claim's tie clause — the clause is not a property of the
program. -/
theorem retrieve_topk_tiebreak_counterexample :
    AdmissibleTopK (simsOf [1] [[1], [1]]) 1 [1] ∧
    ¬ (∀ i ∈ ([1] : List Nat), ∀ j < (2 : Nat), j ∉ ([1] : List Nat) →
        RankLT (simsOf [1] [[1], [1]]) i j) := by
  have hs : simsOf [1] [[1], [1]] = [1, 1] := by
    norm_num [simsOf, dot]
  rw [hs]
  constructor
  · refine ⟨rfl, by decide, by decide, by decide, ?_⟩
    decide
  · intro h
    rcases h 1 (by decide) 0 (by decide) (by decide) with h1 | ⟨_, h2⟩
    · exact absurd h1 (by decide)
    · exact absurd h2 (by decide)

/-- Claim C2: `retrieve` on an index with zero chunks (the persisted
empty index: empty vector matrix, empty chunk list) returns the empty
list for every embedded query and every `top_k`, and does not raise —
the `embs.size == 0` guard fires before the query is even embedded. -/
theorem retrieve_empty_index (q : List ℚ) (k : Nat) :
    retrieve [] [] q k = some [] := by
  simp [retrieve]

/-- Claim C3: `retrieve` is not total on small non-empty indexes. With a
non-empty stored matrix of `N < top_k` rows, `np.argpartition(sims,
-top_k)` receives an out-of-bounds position and raises (`none`); with
zero stored data it returns `[]`; with `N ≥ top_k ≥ 1` rows (and
parallel chunk records) it succeeds. -/
theorem retrieve_partiality
    (embs : List (List ℚ)) (chunks : List Chunk) (q : List ℚ) (k : Nat) :
    ((embs.map (·.length)).sum ≠ 0 → embs.length < k → retrieve embs chunks q k = none) ∧
    ((embs.map (·.length)).sum = 0 → retrieve embs chunks q k = some []) ∧
    (1 ≤ k → k ≤ embs.length → chunks.length = embs.length →
      (retrieve embs chunks q k).isSome = true) := by
  have hslen : (simsOf q embs).length = embs.length := by simp [simsOf]
  refine ⟨?_, ?_, ?_⟩
  · intro hs hlt
    have hk0 : ¬ k = 0 := by omega
    have hnone : argTopK (simsOf q embs) k = none := by
      unfold argTopK kthOf
      rw [if_neg hk0, if_neg]
      rw [hslen]
      intro hc
      omega
    unfold retrieve
    rw [if_neg hs, hnone]
  · intro hs
    unfold retrieve
    rw [if_pos hs]
  · intro hk hkn hlen
    by_cases hs : (embs.map (·.length)).sum = 0
    · unfold retrieve
      rw [if_pos hs]
      rfl
    · rw [retrieve_some_eq embs chunks q k hlen hk hkn hs]
      rfl

/-- Witness for C3: the two-row index with the default `top_k = 6`
raises; the empty index returns `[]`; `top_k = 2` on the two-row index
succeeds. -/
theorem retrieve_partiality_witness :
    ((embsSmall.map (·.length)).sum ≠ 0 ∧ embsSmall.length < 6 ∧
      retrieve embsSmall chunksSmall [1] 6 = none) ∧
    retrieve [] [] [1] 6 = some [] ∧
    (retrieve embsSmall chunksSmall [1] 2).isSome = true :=
  ⟨⟨by decide, by decide,
    (retrieve_partiality embsSmall chunksSmall [1] 6).1 (by decide) (by decide)⟩,
   (retrieve_partiality [] [] [1] 6).2.1 (by decide),
   (retrieve_partiality embsSmall chunksSmall [1] 2).2.2 (by decide) (by decide) (by decide)⟩

/-! Helper lemmas for the chunker bound. -/

theorem pyStrip_length_le (s : List Char) : (pyStrip s).length ≤ s.length := by
  unfold pyStrip
  rw [List.length_reverse]
  calc ((s.dropWhile isPySpace).reverse.dropWhile isPySpace).length
      ≤ (s.dropWhile isPySpace).reverse.length :=
        (List.dropWhile_sublist _).length_le
    _ = (s.dropWhile isPySpace).length := List.length_reverse _
    _ ≤ s.length := (List.dropWhile_sublist _).length_le

theorem joinSep_length (sep : Char) :
    ∀ l : List (List Char), l ≠ [] → (joinSep sep l).length + 1 = bufSize l
  | [], h => absurd rfl h
  | [u], _ => by simp [joinSep, bufSize]
  | u :: v :: rest, _ => by
    have ih := joinSep_length sep (v :: rest) (by simp)
    simp only [joinSep, bufSize, List.map_cons, List.sum_cons, List.length_append,
      List.length_cons] at ih ⊢
    omega

theorem bufSize_append (l1 l2 : List (List Char)) :
    bufSize (l1 ++ l2) = bufSize l1 + bufSize l2 := by
  simp [bufSize]

theorem bufSize_eq_zero {l : List (List Char)} (h : bufSize l = 0) : l = [] := by
  cases l with
  | nil => rfl
  | cons u us => simp [bufSize] at h

theorem takeLast_length_le (n : Nat) (l : List α) : (takeLast n l).length ≤ n := by
  unfold takeLast
  rw [List.length_drop]
  omega

theorem flushBuf_inv {m : Nat} {units : List (List Char)} {st : ChunkState}
    (h : ChunkInv m units st) :
    (∀ c ∈ (flushBuf st).chunks, goodChunk m units c) ∧
      (flushBuf st).buff = [] ∧ (flushBuf st).size = 0 := by
  rcases h with ⟨hc, hsz, hbig⟩
  unfold flushBuf
  by_cases hb : st.buff = []
  · rw [if_pos hb]
    refine ⟨hc, hb, ?_⟩
    rw [hsz, hb]
    rfl
  · rw [if_neg hb]
    refine ⟨?_, rfl, rfl⟩
    intro c hcmem
    rcases List.mem_append.mp hcmem with h1 | h2
    · exact hc c h1
    · have hceq : c = pyStrip (joinSep '\n' st.buff) := by simpa using h2
      subst hceq
      have hjl : (joinSep '\n' st.buff).length + 1 = bufSize st.buff :=
        joinSep_length '\n' st.buff hb
      have hstrip := pyStrip_length_le (joinSep '\n' st.buff)
      rcases hbig with hsm | ⟨u, hu, hbuf, hul⟩
      · left
        omega
      · right
        refine ⟨u, hu, by omega, ?_⟩
        rw [hbuf]
        exact pyStrip_length_le u

theorem addUnit_inv {m : Nat} {units : List (List Char)} {st : ChunkState}
    {u : List Char} (h : ChunkInv m units st) (hu : u ∈ units) :
    ChunkInv m units (addUnit m st u) := by
  have hfl := flushBuf_inv h
  rcases h with ⟨hc, hsz, hbig⟩
  unfold addUnit
  by_cases hcond : st.size + u.length + 1 > m ∧ st.size > 0
  · rw [if_pos hcond]
    unfold pushUnit
    refine ⟨hfl.1, ?_, ?_⟩
    · rw [hfl.2.1, hfl.2.2, bufSize_append]
      simp [bufSize]
    · rw [hfl.2.1, hfl.2.2]
      by_cases hbigu : m < u.length + 1
      · exact Or.inr ⟨u, hu, rfl, hbigu⟩
      · left
        simp [bufSize]
        omega
  · rw [if_neg hcond]
    unfold pushUnit
    refine ⟨hc, ?_, ?_⟩
    · rw [bufSize_append, hsz]
      simp [bufSize]
      omega
    · rcases Decidable.not_and_iff_or_not.mp hcond with h1 | h2
      · left
        simp only []
        omega
      · have hz : st.size = 0 := by omega
        have hbe : st.buff = [] := bufSize_eq_zero (by rw [← hsz]; exact hz)
        by_cases hbigu : m < u.length + 1
        · right
          refine ⟨u, hu, ?_, hbigu⟩
          simp [hbe]
        · left
          simp only []
          omega

theorem foldl_addUnit_inv {m : Nat} {units : List (List Char)}
    (us : List (List Char)) (hus : ∀ u ∈ us, u ∈ units) :
    ∀ st : ChunkState, ChunkInv m units st → ChunkInv m units (us.foldl (addUnit m) st) := by
  induction us with
  | nil => intro st h; exact h
  | cons u rest ih =>
    intro st h
    exact ih (fun v hv => hus v (List.mem_cons_of_mem u hv)) _
      (addUnit_inv h (hus u (List.mem_cons_self u rest)))

theorem procPara_inv {m : Nat} {text : List Char} {p : List Char}
    (hp : p ∈ parasOf text) :
    ∀ st : ChunkState, ChunkInv m (unitsOf text m) st →
      ChunkInv m (unitsOf text m) (procPara m st p) := by
  intro st h
  unfold procPara
  by_cases hlen : p.length > m
  · rw [if_pos hlen]
    refine foldl_addUnit_inv (sentSplit p) ?_ st h
    intro u hu
    unfold unitsOf
    exact List.mem_flatMap.mpr ⟨p, hp, by rw [if_pos hlen]; exact hu⟩
  · rw [if_neg hlen]
    apply addUnit_inv h
    unfold unitsOf
    exact List.mem_flatMap.mpr ⟨p, hp, by rw [if_neg hlen]; exact List.mem_singleton.mpr rfl⟩

theorem rawChunks_good (text : List Char) (m : Nat) :
    ∀ c ∈ rawChunks text m, goodChunk m (unitsOf text m) c := by
  have hinit : ChunkInv m (unitsOf text m) ⟨[], 0, []⟩ :=
    ⟨by simp, rfl, Or.inl (Nat.zero_le m)⟩
  have hfold : ∀ ps : List (List Char), (∀ p ∈ ps, p ∈ parasOf text) →
      ∀ st : ChunkState, ChunkInv m (unitsOf text m) st →
        ChunkInv m (unitsOf text m) (ps.foldl (procPara m) st) := by
    intro ps
    induction ps with
    | nil => intro _ st h; exact h
    | cons p rest ih =>
      intro hps st h
      exact ih (fun q hq => hps q (List.mem_cons_of_mem p hq)) _
        (procPara_inv (hps p (List.mem_cons_self p rest)) st h)
  exact (flushBuf_inv (hfold (parasOf text) (fun _ hp => hp) _ hinit)).1

theorem getD_mem_of_lt {l : List (List Char)} {i : Nat} (h : i < l.length) :
    l.getD i [] ∈ l := by
  rw [List.getD_eq_getElem?_getD, List.getElem?_eq_getElem h]
  exact List.getElem_mem h

theorem ctLoop_shape (decF : List Nat → List Char) (toks : List Nat) (tpc step : Nat) :
    ∀ fuel start c, c ∈ ctLoop decF toks tpc step start fuel →
      ∃ s : List Nat, s.length ≤ tpc ∧ c = wsNorm (decF s) := by
  intro fuel
  induction fuel with
  | zero => intro start c hc; simp [ctLoop] at hc
  | succ f ih =>
    intro start c hc
    rw [ctLoop] at hc
    by_cases hs : start < toks.length
    · rw [if_pos hs] at hc
      by_cases hb : pyStrip (wsNorm (decF ((toks.drop start).take tpc))) = []
      · rw [if_pos hb] at hc
        exact ih _ c hc
      · rw [if_neg hb] at hc
        rcases List.mem_cons.mp hc with rfl | hc2
        · refine ⟨(toks.drop start).take tpc, ?_, rfl⟩
          rw [List.length_take]
          exact Nat.min_le_left _ _
        · exact ih _ c hc2
    · rw [if_neg hs] at hc
      simp at hc

/-- Claim C9 (amended): every chunk of `rag._split_into_chunks`
satisfies `len(chunk) ≤ max_size + overlap`, except chunks whose
pre-overlap content is a single atomic unit `u` (sentence of an
oversized paragraph, or whole paragraph) of length AT LEAST `max_size`
— not only strictly longer, as the claim said — and such chunks are
bounded by `len(u) + overlap + 1` (the `+1` being the newline joined in
front of the unit). For `ingestion.chunk_text` the bound holds in the
token unit: every produced chunk is the whitespace-normalised decoding
of a token slice of length at most `tokens_per_chunk`. -/
theorem chunk_size_bound_amended :
    (∀ (text : List Char) (m ov : Nat), ∀ c ∈ split_into_chunks text m ov,
      c.length ≤ m + ov ∨
        ∃ u ∈ unitsOf text m, m ≤ u.length ∧ c.length ≤ u.length + ov + 1) ∧
    (∀ (encF : List Char → List Nat) (decF : List Nat → List Char)
        (text : List Char) (tpc ov : Nat), ∀ c ∈ chunk_text encF decF text tpc ov,
      ∃ s : List Nat, s.length ≤ tpc ∧ c = wsNorm (decF s)) := by
  constructor
  · intro text m ov c hc
    have hgood := rawChunks_good text m
    unfold split_into_chunks at hc
    by_cases hov : ov = 0 ∨ rawChunks text m = []
    · rw [if_pos hov] at hc
      rcases hgood c hc with h1 | ⟨u, hu, hm, hlen⟩
      · left; omega
      · right; exact ⟨u, hu, hm, by omega⟩
    · rw [if_neg hov] at hc
      rcases List.mem_map.mp hc with ⟨i, hi, rfl⟩
      rw [List.mem_range] at hi
      by_cases hi0 : i = 0
      · rw [if_pos hi0]
        rcases hgood _ (getD_mem_of_lt (by omega : 0 < (rawChunks text m).length))
          with h1 | ⟨u, hu, hm, hlen⟩
        · left; omega
        · right; exact ⟨u, hu, hm, by omega⟩
      · rw [if_neg hi0]
        have hcur := hgood _ (getD_mem_of_lt hi)
        have h1 := pyStrip_length_le (takeLast ov ((rawChunks text m).getD (i - 1) []) ++
          '\n' :: (rawChunks text m).getD i [])
        have h2 := takeLast_length_le ov ((rawChunks text m).getD (i - 1) [])
        rw [List.length_append, List.length_cons] at h1
        rcases hcur with hsm | ⟨u, hu, hm, hcl⟩
        · left; omega
        · right; exact ⟨u, hu, hm, by omega⟩
  · intro encF decF text tpc ov c hc
    exact ctLoop_shape decF (encF text) tpc (max 1 (tpc - ov)) _ 0 c hc

/-- Witness for C9 (amended): a concrete two-paragraph text for the
character chunker, and a concrete encoder/decoder for the token
chunker. -/
theorem chunk_size_bound_amended_witness :
    ("hello\nworld".data ∈ split_into_chunks "hello\n\nworld".data 1200 200 ∧
      ("hello\nworld".data.length ≤ 1200 + 200 ∨
        ∃ u ∈ unitsOf "hello\n\nworld".data 1200, 1200 ≤ u.length ∧
          "hello\nworld".data.length ≤ u.length + 200 + 1)) ∧
    ("aa".data ∈ chunk_text encF0 decF0 "hi".data 300 40 ∧
      ∃ s : List Nat, s.length ≤ 300 ∧ "aa".data = wsNorm (decF0 s)) :=
  ⟨⟨by decide, chunk_size_bound_amended.1 "hello\n\nworld".data 1200 200
      "hello\nworld".data (by decide)⟩,
   ⟨by decide, chunk_size_bound_amended.2 encF0 decF0 "hi".data 300 40
      "aa".data (by decide)⟩⟩

/-- Claim C9 counterexample: with `max_size = 5`, `overlap = 1` on the
text `"ab\n\ncdefg"`, the second produced chunk (`"b\ncdefg"`) has
length `7 > max_size + overlap = 6`, while NO atomic unit of this input
is longer than `max_size` (the unit `"cdefg"` has length exactly 5) —
so a chunk exceeds the bound without consisting of a single oversized
atomic unit, refuting the claim as stated. -/
theorem chunk_size_bound_counterexample :
    (∃ c ∈ split_into_chunks "ab\n\ncdefg".data 5 1, 5 + 1 < c.length) ∧
    (∀ u ∈ unitsOf "ab\n\ncdefg".data 5, u.length ≤ 5) := by
  decide

/-! Helper lemmas for the orchestrator. -/

theorem pollLoop_always_in_progress :
    ∀ fuel i company, pollLoop envAlwaysInProgress company i fuel = .ok none := by
  intro fuel
  induction fuel with
  | zero => intro i c; rfl
  | succ f ih => intro i c; exact ih (i + 1) c

/-- Claim C4 (code bug in the source): the run-status polling loop of
`bot.answer_via_assistant` is NOT bounded by any maximum wait time or
iteration count — against a run that reports `in_progress` on every
poll, the orchestrator is still polling after `fuel` polls for EVERY
`fuel`, never resolving to an absence signal; the spec says runaway
polling is a defect. -/
theorem polling_loop_unbounded (fuel : Nat) :
    answer_via_assistant (some "asst_1") envAlwaysInProgress fuel = none := by
  have h := pollLoop_always_in_progress fuel 0 none
  have hb : assistantBody envAlwaysInProgress fuel =
      pollLoop envAlwaysInProgress none 0 fuel := rfl
  show (match assistantBody envAlwaysInProgress fuel with
    | Except.error _ => some none
    | Except.ok r => r) = none
  rw [hb, h]

theorem pollLoop_some_completed {env : AssistantEnv} {company : Option String} :
    ∀ fuel i s, pollLoop env company i fuel = .ok (some (some s)) →
      ∃ j, env.statusAt j = .ok RunStatus.completed := by
  intro fuel
  induction fuel with
  | zero => intro i s h; simp [pollLoop] at h
  | succ f ih =>
    intro i s h
    rw [pollLoop] at h
    cases hst : env.statusAt i with
    | error e => rw [hst] at h; simp at h
    | ok st =>
      rw [hst] at h
      cases st with
      | queued => exact ih (i + 1) s h
      | in_progress => exact ih (i + 1) s h
      | requires_action calls =>
        have h2 : (match mapMEx (handleCall env company) calls with
            | Except.error e => Except.error e
            | Except.ok outs =>
              match env.submit outs with
              | Except.error e => Except.error e
              | Except.ok _ => pollLoop env company (i + 1) f) =
            Except.ok (some (some s)) := h
        cases hm : mapMEx (handleCall env company) calls with
        | error e => rw [hm] at h2; simp at h2
        | ok outs =>
          rw [hm] at h2
          have h3 : (match env.submit outs with
              | Except.error e => Except.error e
              | Except.ok _ => pollLoop env company (i + 1) f) =
              Except.ok (some (some s)) := h2
          cases hsub : env.submit outs with
          | error e => rw [hsub] at h3; simp at h3
          | ok u => rw [hsub] at h3; exact ih (i + 1) s h3
      | completed => exact ⟨i, hst⟩
      | failed => simp at h
      | cancelled => simp at h
      | expired => simp at h
      | otherStatus s2 => simp at h

/-- Claim C5: `bot.answer_via_assistant` never raises. Any exception in
the orchestration body (thread creation, company extraction, a poll, a
malformed tool argument, tool-output submission, message listing) is
caught and converted to the absence signal `None`; and a non-`None`
answer can only arise from a poll that reported `completed`, so every
terminal status other than `completed` (failed, cancelled, expired, or
any other) likewise yields `None`. -/
theorem assistant_failure_semantics :
    (∀ (env : AssistantEnv) (fuel : Nat) (aid : Option String) (e : PyErr),
      assistantBody env fuel = .error e → answer_via_assistant aid env fuel = some none) ∧
    (∀ (aid : Option String) (env : AssistantEnv) (fuel : Nat) (s : String),
      answer_via_assistant aid env fuel = some (some s) →
      ∃ i, env.statusAt i = .ok RunStatus.completed) := by
  constructor
  · intro env fuel aid e h
    cases aid with
    | none => rfl
    | some a =>
      simp only [answer_via_assistant]
      by_cases ha : a = ""
      · rw [if_pos ha]
      · rw [if_neg ha, h]
  · intro aid env fuel s h
    cases aid with
    | none => simp [answer_via_assistant] at h
    | some a =>
      simp only [answer_via_assistant] at h
      by_cases ha : a = ""
      · rw [if_pos ha] at h
        simp at h
      · rw [if_neg ha] at h
        cases hb : assistantBody env fuel with
        | error e => rw [hb] at h; simp at h
        | ok r =>
          rw [hb] at h
          subst h
          unfold assistantBody at hb
          cases hc : env.create with
          | error e => rw [hc] at hb; simp at hb
          | ok u =>
            rw [hc] at hb
            cases hcc : env.current_company with
            | error e => rw [hcc] at hb; simp at hb
            | ok comp => rw [hcc] at hb; exact pollLoop_some_completed fuel 0 s hb

/-- Witness for C5: a creation failure resolves to `None`; a completed
run with an assistant message shows the only non-`None` path. -/
theorem assistant_failure_semantics_witness :
    answer_via_assistant (some "asst_1") envCreateErr 3 = some none ∧
    ∃ i, envDone.statusAt i = Except.ok RunStatus.completed :=
  ⟨assistant_failure_semantics.1 envCreateErr 3 (some "asst_1") ⟨"ConnectionError"⟩ rfl,
   assistant_failure_semantics.2 (some "asst_1") envDone 1 "Готово" (by decide)⟩

theorem handleCall_ok_shape {env : AssistantEnv} {company : Option String}
    (call : ToolCall) (o : ToolOutput)
    (h : handleCall env company call = .ok o) :
    o.tool_call_id = call.id ∧
    (call.fname ≠ "web_search" → call.fname ≠ "web_fetch" →
      o = ⟨call.id, Payload.unknownTool⟩) := by
  unfold handleCall at h
  by_cases h1 : call.fname = "web_search"
  · rw [if_pos h1] at h
    cases hk : pyInt (call.args.max_results.getD (.pint 5)) with
    | error e => rw [hk] at h; simp at h
    | ok k =>
      rw [hk] at h
      injection h with h2
      subst h2
      exact ⟨rfl, fun hns _ => absurd h1 hns⟩
  · rw [if_neg h1] at h
    by_cases h2 : call.fname = "web_fetch"
    · rw [if_pos h2] at h
      cases hk : pyInt (call.args.max_chars.getD (.pint 4000)) with
      | error e => rw [hk] at h; simp at h
      | ok mc =>
        rw [hk] at h
        injection h with h3
        subst h3
        exact ⟨rfl, fun _ hnf => absurd h2 hnf⟩
    · rw [if_neg h2] at h
      injection h with h3
      subst h3
      exact ⟨rfl, fun _ _ => rfl⟩

/-- Claim C6: whenever the `requires_action` handler finishes without an
exception, it produces exactly one output per pending tool invocation —
the outputs list (the one passed to `submit_tool_outputs`) has the same
length as the tool-calls list, each output is tagged with its call's
`tool_call_id`, and every invocation whose tool name is neither
`web_search` nor `web_fetch` receives the explicit
`{"error": "unknown tool"}` payload rather than being dropped. -/
theorem tool_outputs_cover_calls
    (env : AssistantEnv) (company : Option String) (calls : List ToolCall)
    (outs : List ToolOutput)
    (h : mapMEx (handleCall env company) calls = .ok outs) :
    outs.length = calls.length ∧
    ∀ pr ∈ calls.zip outs, pr.2.tool_call_id = pr.1.id ∧
      (pr.1.fname ≠ "web_search" → pr.1.fname ≠ "web_fetch" →
        pr.2 = ⟨pr.1.id, Payload.unknownTool⟩) := by
  induction calls generalizing outs with
  | nil =>
    unfold mapMEx at h
    injection h with h2
    subst h2
    exact ⟨rfl, by simp⟩
  | cons c cs ih =>
    unfold mapMEx at h
    cases hc : handleCall env company c with
    | error e => rw [hc] at h; simp at h
    | ok o =>
      rw [hc] at h
      cases hm : mapMEx (handleCall env company) cs with
      | error e => rw [hm] at h; simp at h
      | ok os =>
        rw [hm] at h
        have h2 : (Except.ok (o :: os) : Except PyErr (List ToolOutput)) = Except.ok outs := h
        injection h2 with h3
        subst h3
        obtain ⟨hlen, hall⟩ := ih os hm
        refine ⟨by simp [hlen], ?_⟩
        intro pr hpr
        rw [List.zip_cons_cons] at hpr
        rcases List.mem_cons.mp hpr with rfl | h3
        · obtain ⟨ha, hb⟩ := handleCall_ok_shape c o hc
          exact ⟨ha, hb⟩
        · exact hall pr h3

/-- Witness for C6: a well-formed `web_search` call plus an unknown-tool
call, handled without exception. -/
theorem tool_outputs_cover_calls_witness :
    mapMEx (handleCall envAlwaysInProgress none) [callSearch, callUnknown] =
      Except.ok [⟨"call_1", Payload.search []⟩, ⟨"call_2", Payload.unknownTool⟩] ∧
    ([⟨"call_1", Payload.search []⟩, ⟨"call_2", Payload.unknownTool⟩] :
        List ToolOutput).length = [callSearch, callUnknown].length ∧
    ∀ pr ∈ [callSearch, callUnknown].zip
        ([⟨"call_1", Payload.search []⟩, ⟨"call_2", Payload.unknownTool⟩] :
          List ToolOutput),
      pr.2.tool_call_id = pr.1.id ∧
      (pr.1.fname ≠ "web_search" → pr.1.fname ≠ "web_fetch" →
        pr.2 = ⟨pr.1.id, Payload.unknownTool⟩) :=
  ⟨rfl, tool_outputs_cover_calls envAlwaysInProgress none [callSearch, callUnknown]
    [⟨"call_1", Payload.search []⟩, ⟨"call_2", Payload.unknownTool⟩] rfl⟩

/-! Helper lemmas for the deny-list filters. -/

theorem any_false_mem {l : List String} {p : String → Bool}
    (h : ¬ l.any p = true) : ∀ x ∈ l, p x = false := by
  intro x hx
  rw [Bool.eq_false_iff]
  intro hp
  exact h (List.any_eq_true.mpr ⟨x, hx, hp⟩)

theorem acceptResult_deny {r : RawResult} {o : SearchItem}
    (h : acceptResult r = some o) :
    (∀ bad ∈ BAD_HOSTS, py_in bad (pyLowerS o.url) = false) ∧
    (∀ part ∈ BAD_URL_PARTS, py_in part (pyLowerS o.url) = false) := by
  unfold acceptResult at h
  by_cases h1 : pyStripS (pyOrStr r.href (pyOrStr r.url (pyOrStr r.link ""))) = ""
  · rw [if_pos h1] at h
    simp at h
  · rw [if_neg h1] at h
    by_cases h2 : BAD_HOSTS.any fun bad =>
        py_in bad (pyLowerS (pyStripS (pyOrStr r.href (pyOrStr r.url (pyOrStr r.link "")))))
    · rw [if_pos h2] at h
      simp at h
    · rw [if_neg h2] at h
      by_cases h3 : BAD_URL_PARTS.any fun part =>
          py_in part (pyLowerS (pyStripS (pyOrStr r.href (pyOrStr r.url (pyOrStr r.link "")))))
      · rw [if_pos h3] at h
        simp at h
      · rw [if_neg h3] at h
        injection h with h4
        subst h4
        exact ⟨any_false_mem h2, any_false_mem h3⟩

theorem searchLoop_deny (maxr : Int) :
    ∀ (raws : List RawResult) (cnt : Int) (o : SearchItem),
      o ∈ searchLoop maxr raws cnt →
      (∀ bad ∈ BAD_HOSTS, py_in bad (pyLowerS o.url) = false) ∧
      (∀ part ∈ BAD_URL_PARTS, py_in part (pyLowerS o.url) = false) := by
  intro raws
  induction raws with
  | nil => intro cnt o ho; simp [searchLoop] at ho
  | cons r rest ih =>
    intro cnt o ho
    rw [searchLoop] at ho
    cases hacc : acceptResult r with
    | none => rw [hacc] at ho; exact ih cnt o ho
    | some o2 =>
      rw [hacc] at ho
      have hob : o ∈ (if cnt + 1 ≥ maxr then [o2]
          else o2 :: searchLoop maxr rest (cnt + 1)) := ho
      by_cases hbr : cnt + 1 ≥ maxr
      · rw [if_pos hbr] at hob
        have : o = o2 := by simpa using hob
        subst this
        exact acceptResult_deny hacc
      · rw [if_neg hbr] at hob
        rcases List.mem_cons.mp hob with rfl | ho2
        · exact acceptResult_deny hacc
        · exact ih (cnt + 1) o ho2

/-- Every fetch returns the empty-text dict: the only successful-response
path reaches bot.py line 370, whose `resp.url.lower()` raises
`AttributeError` into the blanket `except`. -/
theorem web_fetch_empty (httpGet : String → Except Unit HttpResp)
    (url : String) (max_chars : Int) :
    (web_fetch_impl httpGet url max_chars).text = "" := by
  cases h : httpGet url with
  | error e => simp [web_fetch_impl, h]
  | ok resp => simp [web_fetch_impl, h]

/-- Claim C7: a search result whose lowered URL matches a deny-listed
host (`BAD_HOSTS`) or a deny-listed URL substring (`BAD_URL_PARTS`) is
excluded from `_web_search_impl`'s output; and a fetched page whose
final resolved URL matches the same deny-list is rejected (empty text)
by `_web_fetch_impl`. The fetch half holds because `_web_fetch_impl`
returns empty text for EVERY input (third conjunct): its deny-list line
itself raises `AttributeError` on the httpx URL object and the `except`
returns the empty dict, so deny-listed pages are rejected along with all
others. -/
theorem deny_list_enforcement :
    (∀ (raws : List RawResult) (maxr : Int), ∀ o ∈ web_search_impl raws maxr,
      (∀ bad ∈ BAD_HOSTS, py_in bad (pyLowerS o.url) = false) ∧
      (∀ part ∈ BAD_URL_PARTS, py_in part (pyLowerS o.url) = false)) ∧
    (∀ (httpGet : String → Except Unit HttpResp) (url : String) (max_chars : Int)
        (resp : HttpResp), httpGet url = .ok resp →
      ((BAD_HOSTS.any fun bad => py_in bad (pyLowerS resp.finalUrl)) = true ∨
        (BAD_URL_PARTS.any fun part => py_in part (pyLowerS resp.finalUrl)) = true) →
      (web_fetch_impl httpGet url max_chars).text = "") ∧
    (∀ (httpGet : String → Except Unit HttpResp) (url : String) (max_chars : Int),
      (web_fetch_impl httpGet url max_chars).text = "") := by
  refine ⟨fun raws maxr o ho => searchLoop_deny maxr raws 0 o ho, ?_, ?_⟩
  · intro httpGet url max_chars resp hget hbad
    exact web_fetch_empty httpGet url max_chars
  · intro httpGet url max_chars
    exact web_fetch_empty httpGet url max_chars

/-- Witness for C7: the deny-listed-host and deny-listed-substring raw
results are filtered from a concrete search, and a fetch whose final URL
sits on the deny-listed host `oshibok-net.ru` comes back with empty
text. -/
theorem deny_list_enforcement_witness :
    ((⟨"Profile", "https://example.com/profile", "био"⟩ : SearchItem) ∈
        web_search_impl [rawBadHost, rawGood, rawBadPart] 5 ∧
      (∀ bad ∈ BAD_HOSTS,
        py_in bad (pyLowerS "https://example.com/profile") = false) ∧
      (∀ part ∈ BAD_URL_PARTS,
        py_in part (pyLowerS "https://example.com/profile") = false)) ∧
    ((BAD_HOSTS.any fun bad => py_in bad (pyLowerS cexResp.finalUrl)) = true ∧
      (web_fetch_impl cexGet "https://oshibok-net.ru/stranica" 4000).text = "") :=
  ⟨⟨by decide,
    deny_list_enforcement.1 [rawBadHost, rawGood, rawBadPart] 5
      ⟨"Profile", "https://example.com/profile", "био"⟩ (by decide)⟩,
   ⟨by decide,
    deny_list_enforcement.2.1 cexGet "https://oshibok-net.ru/stranica" 4000 cexResp
      rfl (Or.inl (by decide))⟩⟩

/-- Claim C8 (amended): both classifiers return true for every empty or
whitespace-only input (and `is_empty_message` for `None`), and for the
fixed Russian absence phrases such as "нет информации";
`bot.is_empty_message` additionally matches the English "no answer"
written with whitespace (e.g. "NO ANSWER"). The literal underscore
sentinel "NO_ANSWER", however, is NOT matched by either classifier
(`\bno\s*answer\b` cannot cross the underscore, a word character): it is
instead caught by the separate `"NO_ANSWER" in ans.upper()` substring
check of the answer-synthesis gate. Substantive answers are classified
as non-empty. -/
theorem non_answer_classifier_amended :
    (∀ s : String, pyStrip s.data = [] →
      is_empty_message (some s) = true ∧ is_empty_faq_answer s = true) ∧
    is_empty_message none = true ∧
    (is_empty_message (some "нет информации") = true ∧
      is_empty_faq_answer "нет информации" = true) ∧
    is_empty_message (some "NO ANSWER") = true ∧
    (is_empty_message (some "NO_ANSWER") = false ∧
      is_empty_faq_answer "NO_ANSWER" = false ∧
      answer_gate_rejects "NO_ANSWER" = true) ∧
    (is_empty_message (some "The candidate has 20 years of experience in AI.") = false ∧
      is_empty_faq_answer "The candidate has 20 years of experience in AI." = false) := by
  refine ⟨?_, rfl, by decide, by decide, by decide, by decide⟩
  intro s hs
  constructor
  · show (if s.data = [] then true
      else if pyStrip s.data = [] then true
      else EMPTY_PATTERNS.any fun p => reSearch p (classifierNorm s)) = true
    by_cases h0 : s.data = []
    · rw [if_pos h0]
    · rw [if_neg h0, if_pos hs]
  · unfold is_empty_faq_answer
    by_cases h0 : s.data = []
    · rw [if_pos h0]
    · rw [if_neg h0, if_pos hs]

/-- Witness for C8 (amended): the whitespace-only string "  ". -/
theorem non_answer_classifier_amended_witness :
    pyStrip ("  " : String).data = [] ∧
    is_empty_message (some "  ") = true ∧ is_empty_faq_answer "  " = true :=
  ⟨by decide, (non_answer_classifier_amended.1 "  " (by decide)).1,
   (non_answer_classifier_amended.1 "  " (by decide)).2⟩

/-- Claim C8 counterexample: both classifiers return FALSE on the
literal sentinel "NO_ANSWER" — the pattern `\bno\s*answer\b` does not
match across the underscore (a word character, so neither `\s*` nor a
word boundary fits there), and the ingestion classifier has no English
pattern at all. The claim says the classifier returns true for the
sentinel. -/
theorem non_answer_sentinel_counterexample :
    is_empty_message (some "NO_ANSWER") = false ∧
    is_empty_faq_answer "NO_ANSWER" = false := by
  refine ⟨by decide, by decide⟩

/-! Helper lemma for the FAQ catalog. -/

theorem faq_topics_fields :
    ∀ t ∈ FAQ_TOPICS, t.key ≠ "" ∧ t.label ≠ "" ∧ t.full ≠ "" := by
  decide

/-- Claim C10: the FAQ cache builder produces no entry for a topic whose
retrieval returns zero snippets or whose synthesized reply is classified
as a non-answer — every produced entry comes from a catalog topic with
non-empty key/label/full, a non-empty retrieval, and a reply that passed
the classifier before the CTA suffix was appended; and every topic
retained at load time has non-empty key, label, full and reply, with a
reply that `is_empty_message` rejects, appearing in both the active
topic list and the reply cache. -/
theorem faq_cache_invariant :
    (∀ (retrieveF : String → List Hit) (chatF : FaqTopic → String),
      ∀ e ∈ build_faq_topics retrieveF chatF,
      e.key ≠ "" ∧ e.label ≠ "" ∧ e.full ≠ "" ∧
      ∃ t ∈ FAQ_TOPICS, e.key = t.key ∧ e.label = t.label ∧ e.full = t.full ∧
        retrieveF t.full ≠ [] ∧
        is_empty_faq_answer (pyStripS (chatF t)) = false ∧
        e.reply = pyStripS (chatF t) ++ "\n\n" ++ CTA) ∧
    (∀ payload : List RawTopic, ∀ e ∈ load_cache_topics payload,
      e.key ≠ "" ∧ e.label ≠ "" ∧ e.full ≠ "" ∧ e.reply ≠ "" ∧
      is_empty_message (some e.reply) = false ∧
      (e.key, e.label, e.full) ∈ ACTIVE_FAQ_TOPICS payload ∧
      (e.key, e.reply) ∈ FAQ_CACHE payload) := by
  constructor
  · intro retrieveF chatF e he
    unfold build_faq_topics at he
    rcases List.mem_filterMap.mp he with ⟨t, ht, hstep⟩
    by_cases h1 : retrieveF t.full = []
    · rw [if_pos h1] at hstep
      simp at hstep
    · rw [if_neg h1] at hstep
      by_cases h2 : is_empty_faq_answer (pyStripS (chatF t)) = true
      · rw [if_pos h2] at hstep
        simp at hstep
      · rw [if_neg h2] at hstep
        injection hstep with he2
        subst he2
        obtain ⟨hk, hl, hf⟩ := faq_topics_fields t ht
        exact ⟨hk, hl, hf, t, ht, rfl, rfl, rfl, h1, Bool.eq_false_iff.mpr h2, rfl⟩
  · intro payload e he
    have hact : (e.key, e.label, e.full) ∈ ACTIVE_FAQ_TOPICS payload :=
      List.mem_map_of_mem (fun x => (x.key, x.label, x.full)) he
    have hcache : (e.key, e.reply) ∈ FAQ_CACHE payload :=
      List.mem_map_of_mem (fun x => (x.key, x.reply)) he
    unfold load_cache_topics at he
    rcases List.mem_filterMap.mp he with ⟨item, hitem, hacc⟩
    unfold accept_topic at hacc
    by_cases hcond : pyStripS (pyOrStr item.key "") ≠ "" ∧
        pyStripS (pyOrStr item.label "") ≠ "" ∧
        pyStripS (pyOrStr item.full "") ≠ "" ∧
        pyStripS (pyOrStr item.reply "") ≠ "" ∧
        is_empty_message (some (pyStripS (pyOrStr item.reply ""))) = false
    · rw [if_pos hcond] at hacc
      injection hacc with hacc2
      subst hacc2
      obtain ⟨c1, c2, c3, c4, c5⟩ := hcond
      exact ⟨c1, c2, c3, c4, c5, hact, hcache⟩
    · rw [if_neg hcond] at hacc
      simp at hacc

/-- Witness for C10: a collaborator pair that yields context and a
substantive reply for the first catalog topic only (so exactly one
entry is built), and a two-item persisted payload whose second item has
a non-answer reply (so exactly the first is retained at load). -/
theorem faq_cache_invariant_witness :
    ((⟨"who", "Кто вы сейчас?",
        "Кто вы сейчас? Текущая должность и целевая роль (CEO / COO / CTO / CPO / Head of R&D и т.п.).",
        "Руководитель AI-направления, 20 лет опыта." ++ "\n\n" ++ CTA⟩ : FaqEntry) ∈
        build_faq_topics retrieveF0 chatF0 ∧
      ("Руководитель AI-направления, 20 лет опыта." ++ "\n\n" ++ CTA : String) ≠ "") ∧
    ((⟨"who", "Кто вы сейчас?", "Кто вы сейчас? Полный вопрос.",
        "Руководитель AI-направления, 20 лет опыта."⟩ : LoadedTopic) ∈
        load_cache_topics [rawTopicGood, rawTopicBad] ∧
      (("who", "Кто вы сейчас?", "Кто вы сейчас? Полный вопрос.") ∈
        ACTIVE_FAQ_TOPICS [rawTopicGood, rawTopicBad] ∧
       ("who", "Руководитель AI-направления, 20 лет опыта.") ∈
        FAQ_CACHE [rawTopicGood, rawTopicBad])) :=
  ⟨⟨by decide, by decide⟩,
   ⟨by decide,
    ((faq_cache_invariant.2 [rawTopicGood, rawTopicBad]
        ⟨"who", "Кто вы сейчас?", "Кто вы сейчас? Полный вопрос.",
          "Руководитель AI-направления, 20 лет опыта."⟩ (by decide)).2.2.2.2.2)⟩⟩
